import Mathlib

/-!
Shallow embedding of the order-form web application (app.py and
analyze_orders.py): the order data model, the lifecycle operations
(submit, confirm, reject, edit of confirmed orders, purge of deleted
orders), the weekly report aggregation, and the CSV weekly grouping
script.  Strings, integers and timestamps are modelled directly;
timestamps are seconds (or days, for the CSV script) as natural numbers.
The database is a list of orders; the dictionaries that Python uses for
item totals are association lists in insertion order, matching the
insertion-ordered semantics of Python dicts.
-/

namespace OrderApp

/-! ### A stable sort.
Python's built-in sorted and the pandas groupby sort are stable sorts.
We model them by insertion sort, inserting each element after all
earlier elements that compare less-or-equal to it, which is stable; the
stability theorem isort_stable below justifies the modelling.  The
definitions are structural so that concrete runs reduce in the kernel. -/

def insertLe {α : Type} (le : α → α → Bool) (x : α) : List α → List α
  | [] => [x]
  | y :: ys => if le y x then y :: insertLe le x ys else x :: y :: ys

def isortGo {α : Type} (le : α → α → Bool) (acc : List α) : List α → List α
  | [] => acc
  | x :: xs => isortGo le (insertLe le x acc) xs

def isort {α : Type} (le : α → α → Bool) (l : List α) : List α := isortGo le [] l

theorem mem_insertLe {α : Type} (le : α → α → Bool) (x : α) (l : List α) (y : α) :
    y ∈ insertLe le x l ↔ y = x ∨ y ∈ l := by
  induction l with
  | nil => simp [insertLe]
  | cons z zs ih =>
    by_cases h : le z x = true
    · simp only [insertLe, h, if_true, List.mem_cons, ih]
      tauto
    · simp [insertLe, h]

theorem sublist_insertLe {α : Type} (le : α → α → Bool) (x : α) (l : List α) :
    l.Sublist (insertLe le x l) := by
  induction l with
  | nil => exact List.nil_sublist _
  | cons z zs ih =>
    by_cases h : le z x = true
    · simpa only [insertLe, h, if_true] using List.cons_sublist_cons.mpr ih
    · simp only [insertLe, h, if_false, Bool.false_eq_true]
      exact List.sublist_cons_self x (z :: zs)

theorem perm_insertLe {α : Type} (le : α → α → Bool) (x : α) (l : List α) :
    (insertLe le x l).Perm (x :: l) := by
  induction l with
  | nil => simp [insertLe]
  | cons z zs ih =>
    by_cases h : le z x = true
    · simp only [insertLe, h, if_true]
      exact (ih.cons z).trans (List.Perm.swap x z zs)
    · simp [insertLe, h]

theorem pairwise_insertLe {α : Type} {le : α → α → Bool}
    (hto : ∀ a b, le a b = true ∨ le b a = true)
    (htr : ∀ a b c, le a b = true → le b c = true → le a c = true)
    (x : α) {l : List α} (hl : l.Pairwise (fun a b => le a b = true)) :
    (insertLe le x l).Pairwise (fun a b => le a b = true) := by
  induction l with
  | nil => simp [insertLe]
  | cons z zs ih =>
    rcases List.pairwise_cons.mp hl with ⟨hz, hzs⟩
    by_cases h : le z x = true
    · simp only [insertLe, h, if_true]
      refine List.pairwise_cons.mpr ⟨?_, ih hzs⟩
      intro y hy
      rcases (mem_insertLe le x zs y).mp hy with rfl | hy
      · exact h
      · exact hz y hy
    · simp only [insertLe, h, if_false, Bool.false_eq_true]
      refine List.pairwise_cons.mpr ⟨?_, hl⟩
      intro y hy
      rcases List.mem_cons.mp hy with rfl | hy
      · rcases hto y x with h1 | h1
        · exact absurd h1 h
        · exact h1
      · rcases hto z x with h1 | h1
        · exact absurd h1 h
        · exact htr x z y h1 (hz y hy)

theorem insertLe_stable {α : Type} {le : α → α → Bool}
    (htr : ∀ a b c, le a b = true → le b c = true → le a c = true)
    {a x : α} {l : List α} (hl : l.Pairwise (fun a b => le a b = true))
    (ha : a ∈ l) (hax : le a x = true) :
    [a, x].Sublist (insertLe le x l) := by
  induction l with
  | nil => cases ha
  | cons z zs ih =>
    rcases List.pairwise_cons.mp hl with ⟨hz, hzs⟩
    by_cases h : le z x = true
    · simp only [insertLe, h, if_true]
      rcases List.mem_cons.mp ha with rfl | ha
      · exact List.cons_sublist_cons.mpr
          (List.singleton_sublist.mpr ((mem_insertLe le x zs x).mpr (Or.inl rfl)))
      · exact (ih hzs ha).cons z
    · rcases List.mem_cons.mp ha with rfl | ha
      · exact absurd hax h
      · exact absurd (htr z a x (hz a ha) hax) h

theorem pair_sublist_insertLe_append {α : Type} {le : α → α → Bool}
    (htr : ∀ a b c, le a b = true → le b c = true → le a c = true)
    {a b x : α} {acc xs : List α} (hacc : acc.Pairwise (fun a b => le a b = true))
    (hab : le a b = true) (h : [a, b].Sublist (acc ++ x :: xs)) :
    [a, b].Sublist (insertLe le x acc ++ xs) := by
  have hmemIns : ∀ y, y ∈ acc ++ [x] → y ∈ insertLe le x acc := by
    intro y hy
    rcases List.mem_append.mp hy with hy | hy
    · exact (mem_insertLe le x acc y).mpr (Or.inr hy)
    · rcases List.mem_singleton.mp hy with rfl
      exact (mem_insertLe _ _ acc _).mpr (Or.inl rfl)
  have hpair : [a, b].Sublist (acc ++ [x]) → [a, b].Sublist (insertLe le x acc) := by
    intro h₁
    rcases List.sublist_append_iff.mp h₁ with ⟨m₁, m₂, meq, hm₁, hm₂⟩
    cases m₁ with
    | nil =>
      exfalso
      have hm : m₂ = [a, b] := by simpa using meq.symm
      subst hm
      have := hm₂.length_le
      simp at this
    | cons a₂ t₃ =>
      cases t₃ with
      | nil =>
        obtain ⟨rfl, hm⟩ : a = a₂ ∧ [b] = m₂ := by simpa using meq
        subst hm
        have hbx : b = x := by simpa using List.singleton_sublist.mp hm₂
        subst hbx
        exact insertLe_stable htr hacc (List.singleton_sublist.mp hm₁) hab
      | cons b₂ t₄ =>
        obtain ⟨rfl, rfl, hm⟩ : a = a₂ ∧ b = b₂ ∧ ([] : List α) = t₄ ++ m₂ := by
          simpa using meq
        obtain ⟨rfl, rfl⟩ := (List.append_eq_nil).mp hm.symm
        exact hm₁.trans (sublist_insertLe le x acc)
  have h' : [a, b].Sublist ((acc ++ [x]) ++ xs) := by
    simpa [List.append_assoc] using h
  rcases List.sublist_append_iff.mp h' with ⟨l₁, l₂, heq, h₁, h₂⟩
  cases l₁ with
  | nil =>
    have hl : l₂ = [a, b] := by simpa using heq.symm
    subst hl
    exact List.sublist_append_of_sublist_right h₂
  | cons a₁ t =>
    cases t with
    | nil =>
      obtain ⟨rfl, hl⟩ : a = a₁ ∧ [b] = l₂ := by simpa using heq
      subst hl
      have hstep : ([a] ++ [b]).Sublist (insertLe le x acc ++ xs) :=
        List.Sublist.append
          (List.singleton_sublist.mpr (hmemIns a (List.singleton_sublist.mp h₁))) h₂
      simpa using hstep
    | cons b₁ t₂ =>
      obtain ⟨rfl, rfl, hl⟩ : a = a₁ ∧ b = b₁ ∧ ([] : List α) = t₂ ++ l₂ := by
        simpa using heq
      obtain ⟨rfl, rfl⟩ := (List.append_eq_nil).mp hl.symm
      have := hpair h₁
      exact this.trans (List.sublist_append_left _ _)

theorem isortGo_pairwise {α : Type} {le : α → α → Bool}
    (hto : ∀ a b, le a b = true ∨ le b a = true)
    (htr : ∀ a b c, le a b = true → le b c = true → le a c = true) :
    ∀ (xs acc : List α), acc.Pairwise (fun a b => le a b = true) →
      (isortGo le acc xs).Pairwise (fun a b => le a b = true)
  | [], acc, hacc => hacc
  | x :: xs, acc, hacc =>
    isortGo_pairwise hto htr xs (insertLe le x acc) (pairwise_insertLe hto htr x hacc)

theorem isortGo_perm {α : Type} (le : α → α → Bool) :
    ∀ (xs acc : List α), (isortGo le acc xs).Perm (acc ++ xs)
  | [], acc => by simp [isortGo]
  | x :: xs, acc => by
    have h1 := isortGo_perm le xs (insertLe le x acc)
    have h2 : (insertLe le x acc ++ xs).Perm (acc ++ x :: xs) :=
      ((perm_insertLe le x acc).append_right xs).trans List.perm_middle.symm
    exact h1.trans h2

theorem isortGo_stable {α : Type} {le : α → α → Bool}
    (hto : ∀ a b, le a b = true ∨ le b a = true)
    (htr : ∀ a b c, le a b = true → le b c = true → le a c = true)
    {a b : α} (hab : le a b = true) :
    ∀ (xs acc : List α), acc.Pairwise (fun a b => le a b = true) →
      [a, b].Sublist (acc ++ xs) → [a, b].Sublist (isortGo le acc xs)
  | [], acc, hacc, h => by simpa using h
  | x :: xs, acc, hacc, h =>
    isortGo_stable hto htr hab xs (insertLe le x acc)
      (pairwise_insertLe hto htr x hacc)
      (pair_sublist_insertLe_append htr hacc hab h)

theorem isort_pairwise {α : Type} {le : α → α → Bool}
    (hto : ∀ a b, le a b = true ∨ le b a = true)
    (htr : ∀ a b c, le a b = true → le b c = true → le a c = true)
    (l : List α) : (isort le l).Pairwise (fun a b => le a b = true) :=
  isortGo_pairwise hto htr l [] List.Pairwise.nil

theorem isort_perm {α : Type} (le : α → α → Bool) (l : List α) :
    (isort le l).Perm l := by
  simpa using isortGo_perm le l []

theorem isort_stable {α : Type} {le : α → α → Bool}
    (hto : ∀ a b, le a b = true ∨ le b a = true)
    (htr : ∀ a b c, le a b = true → le b c = true → le a c = true)
    {a b : α} {l : List α} (hab : le a b = true) (h : [a, b].Sublist l) :
    [a, b].Sublist (isort le l) :=
  isortGo_stable hto htr hab l [] List.Pairwise.nil (by simpa using h)

/-! ### Data model.
Mirrors the SQLAlchemy models Order and OrderItem of app.py.  Timestamps
are seconds since the epoch as natural numbers; nullable columns are
Option.  The database is a list of orders (the Item catalog table only
feeds the submission form and is represented by the submitted name list).
-/

inductive Status where
  | pending
  | confirmed
  | deleted
deriving DecidableEq, Repr

structure OrderItem where
  itemName : String
  quantity : Int
deriving DecidableEq, Repr

structure Order where
  id : Nat
  timestamp : Nat
  customerName : String
  customerPhone : String
  roomNumber : String
  status : Status
  adminComment : Option String
  confirmedAt : Option Nat
  deletedAt : Option Nat
  orderItems : List OrderItem
deriving DecidableEq, Repr

abbrev State := List Order

inductive AppError where
  | validation
  | notFound
  | conflict
deriving DecidableEq, Repr

/-- Model of Python str.strip with no arguments: remove leading and
trailing whitespace.  Lean's own String.trim is an equivalent operation
but is defined by well-founded recursion on byte positions and does not
reduce in the kernel, so we use this structural version. -/
def stripChars (l : List Char) : List Char :=
  ((l.dropWhile Char.isWhitespace).reverse.dropWhile Char.isWhitespace).reverse

def pyStrip (s : String) : String := ⟨stripChars s.data⟩

/-- Fresh primary key for an inserted row, strictly above every id in use,
modelling the autoincrement primary key of the order table. -/
def freshId (S : State) : Nat := S.foldr (fun o m => max o.id m) 0 + 1

/-! ### Order lifecycle operations (app.py).
Each web handler that mutates an order becomes a function from the
request data and the order list to Except, with the 404 and 400 error
responses of the handlers mapped to notFound, conflict and validation.
-/

/-- The submission form of the index route: the three contact fields and,
for each catalog item, the parsed quantity field qty_{item.id} (none when
int() raised ValueError on the raw string, which the route skips). -/
structure SubmitInput where
  customerName : String
  customerPhone : String
  roomNumber : String
  itemQtys : List (String × Option Int)
deriving DecidableEq, Repr

/-- The order_details dict built by the index route: entries whose parsed
quantity is positive, in form order; non-numeric and non-positive
quantities are skipped. -/
def orderDetails (l : List (String × Option Int)) : List (String × Int) :=
  l.filterMap fun p =>
    match p.2 with
    | some q => if q > 0 then some (p.1, q) else none
    | none => none

/-- The validation check of the index route: all three stripped contact
fields truthy and at least one positive-quantity item. -/
def submitValid (inp : SubmitInput) : Bool :=
  decide (pyStrip inp.customerName ≠ "") &&
    decide (pyStrip inp.customerPhone ≠ "") &&
    decide (pyStrip inp.roomNumber ≠ "") &&
    !(orderDetails inp.itemQtys).isEmpty

def newOrderOf (inp : SubmitInput) (now : Nat) (S : State) : Order :=
  { id := freshId S
    timestamp := now
    customerName := pyStrip inp.customerName
    customerPhone := pyStrip inp.customerPhone
    roomNumber := pyStrip inp.roomNumber
    status := .pending
    adminComment := none
    confirmedAt := none
    deletedAt := none
    orderItems := (orderDetails inp.itemQtys).map fun d => ⟨d.1, d.2⟩ }

/-- POST branch of the index route: validate, then insert a new pending
order whose line items are the positive-quantity entries. -/
def submit (inp : SubmitInput) (now : Nat) (S : State) : Except AppError State :=
  if submitValid inp then .ok (S ++ [newOrderOf inp now S]) else .error .validation

/-- api_confirm_order: 404 when the id is absent, 400 when the order is
not pending, otherwise set status confirmed, confirmedAt and the stripped
comment. -/
def confirm (orderId : Nat) (comment : String) (now : Nat) (S : State) :
    Except AppError State :=
  match S.find? (fun o => o.id == orderId) with
  | none => .error .notFound
  | some o =>
    if o.status ≠ .pending then .error .conflict
    else .ok (S.map fun o' =>
      if o'.id == orderId then
        { o' with status := .confirmed, confirmedAt := some now,
                  adminComment := some (pyStrip comment) }
      else o')

/-- api_delete_order: 404 when the id is absent, 400 when the order is
not pending, otherwise set status deleted, deletedAt and the stripped
comment. -/
def reject (orderId : Nat) (comment : String) (now : Nat) (S : State) :
    Except AppError State :=
  match S.find? (fun o => o.id == orderId) with
  | none => .error .notFound
  | some o =>
    if o.status ≠ .pending then .error .conflict
    else .ok (S.map fun o' =>
      if o'.id == orderId then
        { o' with status := .deleted, deletedAt := some now,
                  adminComment := some (pyStrip comment) }
      else o')

/-- One entry of the items array of the edit request body. -/
structure EditItem where
  name : String
  quantity : Int
deriving DecidableEq, Repr

/-- The insert-all loop of api_edit_confirmed_order: keep exactly the
entries with positive quantity. -/
def posItems (newItems : List EditItem) : List OrderItem :=
  newItems.filterMap fun it =>
    if it.quantity > 0 then some ⟨it.name, it.quantity⟩ else none

/-- api_edit_confirmed_order: 404 when the id is absent, 400 unless the
order is confirmed, otherwise delete all of its line items and insert the
positive-quantity entries of the request, in one transaction. -/
def editConfirmedItems (orderId : Nat) (newItems : List EditItem) (S : State) :
    Except AppError State :=
  match S.find? (fun o => o.id == orderId) with
  | none => .error .notFound
  | some o =>
    if o.status ≠ .confirmed then .error .conflict
    else .ok (S.map fun o' =>
      if o'.id == orderId then { o' with orderItems := posItems newItems }
      else o')

/-- api_clean_deleted_orders: remove every order with status deleted and
report how many were removed. -/
def purgeDeleted (S : State) : State × Nat :=
  (S.filter (fun o => !(o.status == .deleted)),
    (S.filter (fun o => o.status == .deleted)).length)

/-! ### The public operations as a step system, for the lifecycle claims.
The notifyOk flag of submit records whether the best-effort email
notification would succeed; the route discards the return value of
send_new_order_notification, so the flag influences nothing. -/

inductive Op where
  | submit (inp : SubmitInput) (now : Nat) (notifyOk : Bool)
  | confirm (orderId : Nat) (comment : String) (now : Nat)
  | reject (orderId : Nat) (comment : String) (now : Nat)
  | edit (orderId : Nat) (newItems : List EditItem)
  | purge
deriving DecidableEq, Repr

/-- The state after one request: on any error response the transaction is
rolled back and the order list is unchanged. -/
def applyOp (op : Op) (S : State) : State :=
  match op with
  | .submit inp now _ =>
    match submit inp now S with
    | .ok S' => S'
    | .error _ => S
  | .confirm i c now =>
    match confirm i c now S with
    | .ok S' => S'
    | .error _ => S
  | .reject i c now =>
    match reject i c now S with
    | .ok S' => S'
    | .error _ => S
  | .edit i items =>
    match editConfirmedItems i items S with
    | .ok S' => S'
    | .error _ => S
  | .purge => (purgeDeleted S).1

/-- Run a sequence of requests against the empty database. -/
def runOps (ops : List Op) : State := ops.foldl (fun S op => applyOp op S) []

/-- One outbound email of send_new_order_notification, carrying the data
the route passes to it. -/
structure Notif where
  customerName : String
  customerPhone : String
  roomNumber : String
  details : List (String × Int)
deriving DecidableEq, Repr

/-- The notifications a request emits: the index route sends one new-order
email after the commit of a valid submission, and no other handler sends
mail (api_confirm_order deliberately sends none). -/
def opNotifs (op : Op) : List Notif :=
  match op with
  | .submit inp _ _ =>
    if submitValid inp then
      [⟨pyStrip inp.customerName, pyStrip inp.customerPhone,
        pyStrip inp.roomNumber, orderDetails inp.itemQtys⟩]
    else []
  | _ => []

/-! ### Invariants of the order table. -/

/-- Per-row invariant: the confirmation timestamp is present exactly on
confirmed rows and the deletion timestamp exactly on deleted rows. -/
def OrderInv (o : Order) : Prop :=
  (o.confirmedAt.isSome = true ↔ o.status = .confirmed) ∧
    (o.deletedAt.isSome = true ↔ o.status = .deleted)

/-- Table invariant: primary keys are distinct and every row satisfies
OrderInv. -/
def StateInv (S : State) : Prop :=
  (S.map (fun o => o.id)).Nodup ∧ ∀ o ∈ S, OrderInv o

theorem id_le_foldrMax (S : State) : ∀ o ∈ S, o.id ≤ S.foldr (fun o m => max o.id m) 0 := by
  induction S with
  | nil => simp
  | cons x xs ih =>
    intro o ho
    rcases List.mem_cons.mp ho with rfl | ho
    · exact Nat.le_max_left _ _
    · exact Nat.le_trans (ih o ho) (Nat.le_max_right _ _)

theorem id_lt_freshId {S : State} {o : Order} (h : o ∈ S) : o.id < freshId S :=
  Nat.lt_succ_of_le (id_le_foldrMax S o h)

theorem freshId_not_mem (S : State) : freshId S ∉ S.map (fun o => o.id) := by
  intro hmem
  rcases List.mem_map.mp hmem with ⟨o, ho, hid⟩
  exact absurd hid (Nat.ne_of_lt (id_lt_freshId ho))

theorem eq_of_mem_of_id_eq {S : State} (hnd : (S.map (fun o => o.id)).Nodup)
    {a b : Order} (ha : a ∈ S) (hb : b ∈ S) (h : a.id = b.id) : a = b :=
  List.inj_on_of_nodup_map hnd ha hb h

/-- Shape shared by the three by-id updates of the handlers. -/
theorem mem_map_update {i : Nat} {f : Order → Order} {S : State} {o' : Order} :
    o' ∈ S.map (fun o => if o.id == i then f o else o) ↔
      ∃ o, o ∈ S ∧ o' = (if o.id == i then f o else o) := by
  simp only [List.mem_map, eq_comm]

theorem map_update_id {i : Nat} {f : Order → Order} (S : State)
    (hf : ∀ o, (f o).id = o.id) :
    (S.map (fun o => if o.id == i then f o else o)).map (fun o => o.id) =
      S.map (fun o => o.id) := by
  rw [List.map_map]
  apply List.map_congr_left
  intro o _
  by_cases h : o.id = i
  · simp [h, hf]
  · simp [h]

theorem find?_id_mem {S : State} {i : Nat} {o : Order}
    (h : S.find? (fun o => o.id == i) = some o) : o ∈ S ∧ o.id = i :=
  ⟨List.mem_of_find?_eq_some h, by simpa using List.find?_some h⟩

/-! ### Result shapes of the handlers. -/

theorem submit_ok {inp : SubmitInput} (now : Nat) (S : State)
    (hv : submitValid inp = true) :
    submit inp now S = .ok (S ++ [newOrderOf inp now S]) := by
  simp [submit, hv]

theorem submit_err {inp : SubmitInput} (now : Nat) (S : State)
    (hv : submitValid inp = false) :
    submit inp now S = .error .validation := by
  simp [submit, hv]

def confirmUpd (comment : String) (now : Nat) (o : Order) : Order :=
  { o with status := .confirmed, confirmedAt := some now,
           adminComment := some (pyStrip comment) }

def rejectUpd (comment : String) (now : Nat) (o : Order) : Order :=
  { o with status := .deleted, deletedAt := some now,
           adminComment := some (pyStrip comment) }

def editUpd (newItems : List EditItem) (o : Order) : Order :=
  { o with orderItems := posItems newItems }

theorem confirm_notFound {S : State} {i : Nat} (c : String) (now : Nat)
    (h : S.find? (fun o => o.id == i) = none) :
    confirm i c now S = .error .notFound := by
  simp [confirm, h]

theorem confirm_conflict {S : State} {i : Nat} {o : Order} (c : String) (now : Nat)
    (h : S.find? (fun o => o.id == i) = some o) (hs : o.status ≠ .pending) :
    confirm i c now S = .error .conflict := by
  simp [confirm, h, hs]

theorem confirm_ok {S : State} {i : Nat} {o : Order} (c : String) (now : Nat)
    (h : S.find? (fun o => o.id == i) = some o) (hs : o.status = .pending) :
    confirm i c now S =
      .ok (S.map fun o' => if o'.id == i then confirmUpd c now o' else o') := by
  simp [confirm, h, hs, confirmUpd]

theorem reject_notFound {S : State} {i : Nat} (c : String) (now : Nat)
    (h : S.find? (fun o => o.id == i) = none) :
    reject i c now S = .error .notFound := by
  simp [reject, h]

theorem reject_conflict {S : State} {i : Nat} {o : Order} (c : String) (now : Nat)
    (h : S.find? (fun o => o.id == i) = some o) (hs : o.status ≠ .pending) :
    reject i c now S = .error .conflict := by
  simp [reject, h, hs]

theorem reject_ok {S : State} {i : Nat} {o : Order} (c : String) (now : Nat)
    (h : S.find? (fun o => o.id == i) = some o) (hs : o.status = .pending) :
    reject i c now S =
      .ok (S.map fun o' => if o'.id == i then rejectUpd c now o' else o') := by
  simp [reject, h, hs, rejectUpd]

theorem edit_notFound {S : State} {i : Nat} (newItems : List EditItem)
    (h : S.find? (fun o => o.id == i) = none) :
    editConfirmedItems i newItems S = .error .notFound := by
  simp [editConfirmedItems, h]

theorem edit_conflict {S : State} {i : Nat} {o : Order} (newItems : List EditItem)
    (h : S.find? (fun o => o.id == i) = some o) (hs : o.status ≠ .confirmed) :
    editConfirmedItems i newItems S = .error .conflict := by
  simp [editConfirmedItems, h, hs]

theorem edit_ok {S : State} {i : Nat} {o : Order} (newItems : List EditItem)
    (h : S.find? (fun o => o.id == i) = some o) (hs : o.status = .confirmed) :
    editConfirmedItems i newItems S =
      .ok (S.map fun o' => if o'.id == i then editUpd newItems o' else o') := by
  simp [editConfirmedItems, h, hs, editUpd]

/-! ### Invariant preservation and the transition relation. -/

theorem stateInv_map_update {S : State} {i : Nat} {f : Order → Order}
    (hf : ∀ o, (f o).id = o.id) (h : StateInv S)
    (hOrd : ∀ o ∈ S, o.id = i → OrderInv (f o)) :
    StateInv (S.map fun o => if o.id == i then f o else o) := by
  refine ⟨?_, ?_⟩
  · rw [map_update_id S hf]
    exact h.1
  · intro o' ho'
    rcases mem_map_update.mp ho' with ⟨o, ho, rfl⟩
    by_cases hi : o.id = i
    · simpa [hi] using hOrd o ho hi
    · simpa [hi] using h.2 o ho

theorem applyOp_preserves (op : Op) (S : State) (h : StateInv S) :
    StateInv (applyOp op S) := by
  cases op with
  | submit inp now b =>
    by_cases hv : submitValid inp
    · simp only [applyOp, submit_ok now S hv]
      refine ⟨?_, ?_⟩
      · rw [List.map_append]
        rw [List.nodup_append]
        refine ⟨h.1, by simp, ?_⟩
        intro x hx hx1
        have : x = freshId S := by
          simpa [newOrderOf] using hx1
        subst this
        exact freshId_not_mem S hx
      · intro o ho
        rcases List.mem_append.mp ho with ho | ho
        · exact h.2 o ho
        · rcases List.mem_singleton.mp ho with rfl
          simp [OrderInv, newOrderOf]
    · simp only [applyOp, submit_err now S (by simpa using hv)]
      exact h
  | confirm i c now =>
    rcases hfind : S.find? (fun o => o.id == i) with _ | o
    · simp only [applyOp, confirm_notFound c now hfind]
      exact h
    · by_cases hs : o.status = .pending
      · simp only [applyOp, confirm_ok c now hfind hs]
        refine stateInv_map_update (fun o => rfl) h ?_
        intro x hx hxi
        have hxo : x = o := by
          rcases find?_id_mem hfind with ⟨ho, hoi⟩
          exact eq_of_mem_of_id_eq h.1 hx ho (hxi.trans hoi.symm)
        subst hxo
        have hdel : x.deletedAt.isSome = false := by
          rcases h.2 x hx with ⟨_, h2⟩
          by_contra hcon
          have := h2.mp (eq_true_of_ne_false hcon)
          rw [hs] at this
          cases this
        constructor
        · simp [confirmUpd]
        · simp [confirmUpd, hdel]
      · simp only [applyOp, confirm_conflict c now hfind hs]
        exact h
  | reject i c now =>
    rcases hfind : S.find? (fun o => o.id == i) with _ | o
    · simp only [applyOp, reject_notFound c now hfind]
      exact h
    · by_cases hs : o.status = .pending
      · simp only [applyOp, reject_ok c now hfind hs]
        refine stateInv_map_update (fun o => rfl) h ?_
        intro x hx hxi
        have hxo : x = o := by
          rcases find?_id_mem hfind with ⟨ho, hoi⟩
          exact eq_of_mem_of_id_eq h.1 hx ho (hxi.trans hoi.symm)
        subst hxo
        have hconf : x.confirmedAt.isSome = false := by
          rcases h.2 x hx with ⟨h1, _⟩
          by_contra hcon
          have := h1.mp (eq_true_of_ne_false hcon)
          rw [hs] at this
          cases this
        constructor
        · simp [rejectUpd, hconf]
        · simp [rejectUpd]
      · simp only [applyOp, reject_conflict c now hfind hs]
        exact h
  | edit i newItems =>
    rcases hfind : S.find? (fun o => o.id == i) with _ | o
    · simp only [applyOp, edit_notFound newItems hfind]
      exact h
    · by_cases hs : o.status = .confirmed
      · simp only [applyOp, edit_ok newItems hfind hs]
        refine stateInv_map_update (fun o => rfl) h ?_
        intro x hx _
        rcases h.2 x hx with ⟨h1, h2⟩
        exact ⟨by simpa [editUpd] using h1, by simpa [editUpd] using h2⟩
      · simp only [applyOp, edit_conflict newItems hfind hs]
        exact h
  | purge =>
    refine ⟨?_, ?_⟩
    · exact h.1.sublist (List.Sublist.map _ (List.filter_sublist S))
    · intro o ho
      exact h.2 o (List.mem_of_mem_filter ho)

/-- One request changes the status of a stored order only along the two
transitions pending to confirmed and pending to deleted. -/
theorem applyOp_status (op : Op) (S : State) (h : StateInv S) :
    ∀ o' ∈ applyOp op S, ∀ o ∈ S, o.id = o'.id →
      o'.status = o.status ∨
        (o.status = .pending ∧ (o'.status = .confirmed ∨ o'.status = .deleted)) := by
  have hsame : ∀ o' ∈ S, ∀ o ∈ S, o.id = o'.id →
      o'.status = o.status ∨
        (o.status = .pending ∧ (o'.status = .confirmed ∨ o'.status = .deleted)) := by
    intro o' ho' o ho hid
    exact Or.inl (congrArg Order.status (eq_of_mem_of_id_eq h.1 ho' ho hid.symm))
  cases op with
  | submit inp now b =>
    by_cases hv : submitValid inp
    · simp only [applyOp, submit_ok now S hv]
      intro o' ho' o ho hid
      rcases List.mem_append.mp ho' with ho' | ho'
      · exact hsame o' ho' o ho hid
      · rcases List.mem_singleton.mp ho' with rfl
        exact absurd hid (Nat.ne_of_lt (id_lt_freshId ho))
    · simp only [applyOp, submit_err now S (by simpa using hv)]
      exact hsame
  | confirm i c now =>
    rcases hfind : S.find? (fun o => o.id == i) with _ | o₀
    · simp only [applyOp, confirm_notFound c now hfind]
      exact hsame
    · by_cases hs : o₀.status = .pending
      · simp only [applyOp, confirm_ok c now hfind hs]
        intro o' ho' o ho hid
        rcases mem_map_update.mp ho' with ⟨x, hx, rfl⟩
        by_cases hxi : x.id = i
        · rcases find?_id_mem hfind with ⟨ho₀, hoi⟩
          have hxo : x = o₀ := eq_of_mem_of_id_eq h.1 hx ho₀ (hxi.trans hoi.symm)
          have hox : o = x := by
            apply eq_of_mem_of_id_eq h.1 ho hx
            simpa [hxi, confirmUpd] using hid
          subst hox hxo
          refine Or.inr ⟨hs, Or.inl ?_⟩
          simp [hxi, confirmUpd]
        · have : (if x.id == i then confirmUpd c now x else x) = x := by simp [hxi]
          rw [this] at hid ⊢
          exact hsame x hx o ho hid
      · simp only [applyOp, confirm_conflict c now hfind hs]
        exact hsame
  | reject i c now =>
    rcases hfind : S.find? (fun o => o.id == i) with _ | o₀
    · simp only [applyOp, reject_notFound c now hfind]
      exact hsame
    · by_cases hs : o₀.status = .pending
      · simp only [applyOp, reject_ok c now hfind hs]
        intro o' ho' o ho hid
        rcases mem_map_update.mp ho' with ⟨x, hx, rfl⟩
        by_cases hxi : x.id = i
        · rcases find?_id_mem hfind with ⟨ho₀, hoi⟩
          have hxo : x = o₀ := eq_of_mem_of_id_eq h.1 hx ho₀ (hxi.trans hoi.symm)
          have hox : o = x := by
            apply eq_of_mem_of_id_eq h.1 ho hx
            simpa [hxi, rejectUpd] using hid
          subst hox hxo
          refine Or.inr ⟨hs, Or.inr ?_⟩
          simp [hxi, rejectUpd]
        · have : (if x.id == i then rejectUpd c now x else x) = x := by simp [hxi]
          rw [this] at hid ⊢
          exact hsame x hx o ho hid
      · simp only [applyOp, reject_conflict c now hfind hs]
        exact hsame
  | edit i newItems =>
    rcases hfind : S.find? (fun o => o.id == i) with _ | o₀
    · simp only [applyOp, edit_notFound newItems hfind]
      exact hsame
    · by_cases hs : o₀.status = .confirmed
      · simp only [applyOp, edit_ok newItems hfind hs]
        intro o' ho' o ho hid
        rcases mem_map_update.mp ho' with ⟨x, hx, rfl⟩
        have hstat : (if x.id == i then editUpd newItems x else x).status = x.status := by
          by_cases hxi : x.id = i <;> simp [hxi, editUpd]
        have hid' : o.id = x.id := by
          by_cases hxi : x.id = i
          · simpa [hxi, editUpd] using hid
          · simpa [hxi] using hid
        rw [hstat]
        exact hsame x hx o ho hid'
      · simp only [applyOp, edit_conflict newItems hfind hs]
        exact hsame
  | purge =>
    intro o' ho' o ho hid
    exact hsame o' (List.mem_of_mem_filter ho') o ho hid

/-- A stored order disappears from the table only through the purge
request, and only when its status is deleted. -/
theorem applyOp_removed (op : Op) (S : State) :
    ∀ o ∈ S, (∀ o' ∈ applyOp op S, o'.id ≠ o.id) →
      op = .purge ∧ o.status = .deleted := by
  cases op with
  | submit inp now b =>
    intro o ho hgone
    exfalso
    by_cases hv : submitValid inp
    · refine hgone o ?_ rfl
      simp only [applyOp, submit_ok now S hv]
      exact List.mem_append.mpr (Or.inl ho)
    · refine hgone o ?_ rfl
      simp only [applyOp, submit_err now S (by simpa using hv)]
      exact ho
  | confirm i c now =>
    intro o ho hgone
    exfalso
    rcases hfind : S.find? (fun o => o.id == i) with _ | o₀
    · exact hgone o (by simp only [applyOp, confirm_notFound c now hfind]; exact ho) rfl
    · by_cases hs : o₀.status = .pending
      · refine hgone (if o.id == i then confirmUpd c now o else o) ?_ ?_
        · simp only [applyOp, confirm_ok c now hfind hs]
          exact mem_map_update.mpr ⟨o, ho, rfl⟩
        · by_cases hoi : o.id = i <;> simp [hoi, confirmUpd]
      · refine hgone o ?_ rfl
        simp only [applyOp, confirm_conflict c now hfind hs]
        exact ho
  | reject i c now =>
    intro o ho hgone
    exfalso
    rcases hfind : S.find? (fun o => o.id == i) with _ | o₀
    · exact hgone o (by simp only [applyOp, reject_notFound c now hfind]; exact ho) rfl
    · by_cases hs : o₀.status = .pending
      · refine hgone (if o.id == i then rejectUpd c now o else o) ?_ ?_
        · simp only [applyOp, reject_ok c now hfind hs]
          exact mem_map_update.mpr ⟨o, ho, rfl⟩
        · by_cases hoi : o.id = i <;> simp [hoi, rejectUpd]
      · refine hgone o ?_ rfl
        simp only [applyOp, reject_conflict c now hfind hs]
        exact ho
  | edit i newItems =>
    intro o ho hgone
    exfalso
    rcases hfind : S.find? (fun o => o.id == i) with _ | o₀
    · exact hgone o (by simp only [applyOp, edit_notFound newItems hfind]; exact ho) rfl
    · by_cases hs : o₀.status = .confirmed
      · refine hgone (if o.id == i then editUpd newItems o else o) ?_ ?_
        · simp only [applyOp, edit_ok newItems hfind hs]
          exact mem_map_update.mpr ⟨o, ho, rfl⟩
        · by_cases hoi : o.id = i <;> simp [hoi, editUpd]
      · refine hgone o ?_ rfl
        simp only [applyOp, edit_conflict newItems hfind hs]
        exact ho
  | purge =>
    intro o ho hgone
    refine ⟨rfl, ?_⟩
    by_contra hs
    refine hgone o ?_ rfl
    simp only [applyOp, purgeDeleted]
    refine List.mem_filter.mpr ⟨ho, ?_⟩
    simpa using hs

theorem stateInv_foldl (ops : List Op) :
    ∀ S : State, StateInv S → StateInv (ops.foldl (fun S op => applyOp op S) S) := by
  induction ops with
  | nil => intro S h; exact h
  | cons op ops ih =>
    intro S h
    exact ih (applyOp op S) (applyOp_preserves op S h)

theorem stateInv_runOps (ops : List Op) : StateInv (runOps ops) :=
  stateInv_foldl ops [] ⟨List.nodup_nil, by simp⟩

theorem runOps_append (ops : List Op) (op : Op) :
    runOps (ops ++ [op]) = applyOp op (runOps ops) := by
  simp [runOps, List.foldl_append]

/-- C1: along every sequence of the public operations run from the empty
database, each stored order has confirmedAt set exactly when its status
is confirmed and deletedAt exactly when it is deleted, never both; one
further operation moves a status only along pending to confirmed or
pending to deleted (all other statuses are left as they are); and an
order leaves the table only through purge, and then only with status
deleted. -/
theorem C1_state_machine (ops : List Op) (op : Op) :
    (∀ o ∈ runOps (ops ++ [op]),
        OrderInv o ∧
          ¬(o.confirmedAt.isSome = true ∧ o.deletedAt.isSome = true)) ∧
    (∀ o' ∈ runOps (ops ++ [op]), ∀ o ∈ runOps ops, o.id = o'.id →
        o'.status = o.status ∨
          (o.status = .pending ∧
            (o'.status = .confirmed ∨ o'.status = .deleted))) ∧
    (∀ o ∈ runOps ops, (∀ o' ∈ runOps (ops ++ [op]), o'.id ≠ o.id) →
        op = .purge ∧ o.status = .deleted) := by
  have hInv := stateInv_runOps ops
  have hInv' := stateInv_runOps (ops ++ [op])
  refine ⟨?_, ?_, ?_⟩
  · intro o ho
    refine ⟨hInv'.2 o ho, ?_⟩
    rintro ⟨h1, h2⟩
    rcases hInv'.2 o ho with ⟨hc, hd⟩
    have hic := hc.mp h1
    have hid := hd.mp h2
    rw [hic] at hid
    cases hid
  · rw [runOps_append]
    exact applyOp_status op (runOps ops) hInv
  · intro o ho hgone
    refine applyOp_removed op (runOps ops) o ho ?_
    intro o' ho'
    refine hgone o' ?_
    rw [runOps_append]
    exact ho'

/-- Concrete run of C1: submit one order, then confirm it; the confirmed
row satisfies the invariant and the step from the pending row to the
confirmed row is a legal transition. -/
theorem C1_state_machine_witness :
    (OrderInv
        { id := 1, timestamp := 100, customerName := "Ana",
          customerPhone := "555", roomNumber := "12", status := .confirmed,
          adminComment := some "ok", confirmedAt := some 200,
          deletedAt := none, orderItems := [⟨"Water", 2⟩] } ∧
      ¬((some 200 : Option Nat).isSome = true ∧
          (none : Option Nat).isSome = true)) ∧
    ((Status.confirmed = Status.pending) ∨
      (Status.pending = Status.pending ∧
        (Status.confirmed = Status.confirmed ∨
          Status.confirmed = Status.deleted))) := by
  have h := C1_state_machine
    [.submit ⟨"Ana", "555", "12", [("Water", some 2)]⟩ 100 true]
    (.confirm 1 "ok" 200)
  refine ⟨h.1
    { id := 1, timestamp := 100, customerName := "Ana",
      customerPhone := "555", roomNumber := "12", status := .confirmed,
      adminComment := some "ok", confirmedAt := some 200,
      deletedAt := none, orderItems := [⟨"Water", 2⟩] } (by decide), ?_⟩
  have h2 := h.2.1
    { id := 1, timestamp := 100, customerName := "Ana",
      customerPhone := "555", roomNumber := "12", status := .confirmed,
      adminComment := some "ok", confirmedAt := some 200,
      deletedAt := none, orderItems := [⟨"Water", 2⟩] } (by decide)
    { id := 1, timestamp := 100, customerName := "Ana",
      customerPhone := "555", roomNumber := "12", status := .pending,
      adminComment := none, confirmedAt := none,
      deletedAt := none, orderItems := [⟨"Water", 2⟩] } (by decide) (by decide)
  simpa using h2

theorem isEmpty_eq_false_iff {α : Type} (l : List α) : l.isEmpty = false ↔ l ≠ [] := by
  cases l <;> simp

theorem orderDetails_mem (l : List (String × Option Int)) (p : String × Int) :
    p ∈ orderDetails l ↔ ((p.1, some p.2) ∈ l ∧ 0 < p.2) := by
  constructor
  · intro hp
    rcases List.mem_filterMap.mp hp with ⟨a, ha, hfa⟩
    rcases a with ⟨n, q?⟩
    cases q? with
    | none => simp at hfa
    | some q =>
      by_cases hq : q > 0
      · simp only [hq, if_true, Option.some.injEq] at hfa
        rcases hfa with rfl
        exact ⟨ha, hq⟩
      · simp [hq] at hfa
  · rintro ⟨hmem, hq⟩
    exact List.mem_filterMap.mpr ⟨(p.1, some p.2), hmem, by simp [hq]⟩

/-- C3: a submission succeeds exactly when the three stripped contact
fields are non-empty and some entry has positive quantity; on success it
appends one new order with status pending whose line items are exactly
the positive-quantity entries of the input (non-numeric and non-positive
quantities are dropped silently); otherwise it fails with a validation
error and the order list is unchanged. -/
theorem C3_submit_correct (inp : SubmitInput) (now : Nat) (S : State) :
    (submitValid inp = true ↔
      (pyStrip inp.customerName ≠ "" ∧ pyStrip inp.customerPhone ≠ "" ∧
        pyStrip inp.roomNumber ≠ "" ∧ orderDetails inp.itemQtys ≠ [])) ∧
    (∀ oi : OrderItem, oi ∈ (newOrderOf inp now S).orderItems ↔
        ((oi.itemName, some oi.quantity) ∈ inp.itemQtys ∧ 0 < oi.quantity)) ∧
    (∀ (n : String) (q : Int), q ≤ 0 →
        orderDetails (inp.itemQtys ++ [(n, some q)]) = orderDetails inp.itemQtys) ∧
    (∀ n : String,
        orderDetails (inp.itemQtys ++ [(n, none)]) = orderDetails inp.itemQtys) ∧
    (submitValid inp = true →
        submit inp now S = .ok (S ++ [newOrderOf inp now S]) ∧
        (newOrderOf inp now S).status = .pending) ∧
    (submitValid inp = false →
        submit inp now S = .error .validation ∧
        ∀ b : Bool, applyOp (.submit inp now b) S = S) := by
  refine ⟨?_, ?_, ?_, ?_, ?_, ?_⟩
  · simp only [submitValid, Bool.and_eq_true, decide_eq_true_eq,
      Bool.not_eq_true', isEmpty_eq_false_iff, ne_eq]
    tauto
  · intro oi
    constructor
    · intro hoi
      rcases List.mem_map.mp hoi with ⟨d, hd, hde⟩
      rcases (orderDetails_mem inp.itemQtys d).mp hd with ⟨hmem, hq⟩
      cases oi
      cases hde
      exact ⟨hmem, hq⟩
    · rintro ⟨hmem, hq⟩
      refine List.mem_map.mpr ⟨(oi.itemName, oi.quantity), ?_, rfl⟩
      exact (orderDetails_mem inp.itemQtys (oi.itemName, oi.quantity)).mpr ⟨hmem, hq⟩
  · intro n q hq
    simp [orderDetails, List.filterMap_append, Int.not_lt.mpr hq]
  · intro n
    simp [orderDetails, List.filterMap_append]
  · intro hv
    exact ⟨submit_ok now S hv, rfl⟩
  · intro hv
    refine ⟨submit_err now S hv, ?_⟩
    intro b
    simp [applyOp, submit_err now S hv]

/-- Concrete run of C3: a filled form with one positive, one zero and one
non-numeric quantity creates a pending order carrying just the positive
line, and a form with a blank name is rejected. -/
theorem C3_submit_correct_witness :
    (submit ⟨"Ana", "555", "12", [("Water", some 2), ("Tea", some 0), ("Juice", none)]⟩
        100 [] =
      .ok [{ id := 1, timestamp := 100, customerName := "Ana",
             customerPhone := "555", roomNumber := "12", status := .pending,
             adminComment := none, confirmedAt := none, deletedAt := none,
             orderItems := [⟨"Water", 2⟩] }] ∧
      (newOrderOf ⟨"Ana", "555", "12",
          [("Water", some 2), ("Tea", some 0), ("Juice", none)]⟩ 100 []).status =
        .pending) ∧
    (submit ⟨"  ", "555", "12", [("Water", some 2)]⟩ 100 [] =
        .error .validation ∧
      ∀ b : Bool,
        applyOp (.submit ⟨"  ", "555", "12", [("Water", some 2)]⟩ 100 b) [] = []) := by
  constructor
  · have h := (C3_submit_correct
      ⟨"Ana", "555", "12", [("Water", some 2), ("Tea", some 0), ("Juice", none)]⟩
      100 []).2.2.2.2.1 (by decide)
    exact ⟨by rw [h.1]; exact congrArg Except.ok (by decide), h.2⟩
  · exact (C3_submit_correct ⟨"  ", "555", "12", [("Water", some 2)]⟩
      100 []).2.2.2.2.2 (by decide)

theorem find?_eq_none_of_no_id {S : State} {i : Nat} (h : ∀ o ∈ S, o.id ≠ i) :
    S.find? (fun o => o.id == i) = none := by
  rw [List.find?_eq_none]
  intro o ho
  simpa using h o ho

theorem confirm_ok_inv {S S' : State} {i : Nat} {c : String} {now : Nat}
    (h : confirm i c now S = .ok S') :
    ∃ o, S.find? (fun x => x.id == i) = some o ∧ o.status = .pending ∧
      S' = S.map fun o' => if o'.id == i then confirmUpd c now o' else o' := by
  rcases hfind : S.find? (fun x => x.id == i) with _ | o
  · rw [confirm_notFound c now hfind] at h
    cases h
  · by_cases hs : o.status = .pending
    · rw [confirm_ok c now hfind hs] at h
      cases h
      exact ⟨o, hfind, hs, rfl⟩
    · rw [confirm_conflict c now hfind hs] at h
      cases h

theorem reject_ok_inv {S S' : State} {i : Nat} {c : String} {now : Nat}
    (h : reject i c now S = .ok S') :
    ∃ o, S.find? (fun x => x.id == i) = some o ∧ o.status = .pending ∧
      S' = S.map fun o' => if o'.id == i then rejectUpd c now o' else o' := by
  rcases hfind : S.find? (fun x => x.id == i) with _ | o
  · rw [reject_notFound c now hfind] at h
    cases h
  · by_cases hs : o.status = .pending
    · rw [reject_ok c now hfind hs] at h
      cases h
      exact ⟨o, hfind, hs, rfl⟩
    · rw [reject_conflict c now hfind hs] at h
      cases h

theorem find?_map_update (S : State) (i : Nat) (f : Order → Order)
    (hf : ∀ o, (f o).id = o.id) :
    (S.map fun o' => if o'.id == i then f o' else o').find? (fun x => x.id == i) =
      (S.find? (fun x => x.id == i)).map (fun o' => if o'.id == i then f o' else o') := by
  have hcomp : ((fun x : Order => x.id == i) ∘ fun o' => if o'.id == i then f o' else o')
      = (fun x : Order => x.id == i) := by
    funext o
    by_cases h : o.id = i <;> simp [h, hf]
  rw [List.find?_map, hcomp]

/-- C4: confirm and reject answer not-found for an unknown id and
conflict for any non-pending order, leaving the table unchanged; on a
pending order they set the new status, the matching timestamp and the
stripped comment; and after either successful transition every further
confirm or reject of that order answers conflict and changes nothing. -/
theorem C4_confirm_reject_errors (i : Nat) (c : String) (now : Nat) (S : State) :
    ((∀ o ∈ S, o.id ≠ i) →
        confirm i c now S = .error .notFound ∧
        reject i c now S = .error .notFound) ∧
    (∀ o, S.find? (fun x => x.id == i) = some o → o.status ≠ .pending →
        confirm i c now S = .error .conflict ∧
        reject i c now S = .error .conflict ∧
        applyOp (.confirm i c now) S = S ∧ applyOp (.reject i c now) S = S) ∧
    (∀ o, S.find? (fun x => x.id == i) = some o → o.status = .pending →
        (∃ S', confirm i c now S = .ok S' ∧
          ∀ o' ∈ S',
            (o'.id = i → o'.status = .confirmed ∧ o'.confirmedAt = some now ∧
              o'.adminComment = some (pyStrip c)) ∧ (o'.id ≠ i → o' ∈ S)) ∧
        (∃ S', reject i c now S = .ok S' ∧
          ∀ o' ∈ S',
            (o'.id = i → o'.status = .deleted ∧ o'.deletedAt = some now ∧
              o'.adminComment = some (pyStrip c)) ∧ (o'.id ≠ i → o' ∈ S))) ∧
    (∀ S' c₂ now₂, confirm i c now S = .ok S' →
        confirm i c₂ now₂ S' = .error .conflict ∧
        reject i c₂ now₂ S' = .error .conflict ∧
        applyOp (.confirm i c₂ now₂) S' = S' ∧
        applyOp (.reject i c₂ now₂) S' = S') ∧
    (∀ S' c₂ now₂, reject i c now S = .ok S' →
        confirm i c₂ now₂ S' = .error .conflict ∧
        reject i c₂ now₂ S' = .error .conflict ∧
        applyOp (.confirm i c₂ now₂) S' = S' ∧
        applyOp (.reject i c₂ now₂) S' = S') := by
  refine ⟨?_, ?_, ?_, ?_, ?_⟩
  · intro h
    have hfind := find?_eq_none_of_no_id h
    exact ⟨confirm_notFound c now hfind, reject_notFound c now hfind⟩
  · intro o hfind hs
    refine ⟨confirm_conflict c now hfind hs, reject_conflict c now hfind hs, ?_, ?_⟩
    · simp [applyOp, confirm_conflict c now hfind hs]
    · simp [applyOp, reject_conflict c now hfind hs]
  · intro o hfind hs
    constructor
    · refine ⟨_, confirm_ok c now hfind hs, ?_⟩
      intro o' ho'
      rcases mem_map_update.mp ho' with ⟨x, hx, rfl⟩
      by_cases hxi : x.id = i
      · constructor
        · intro _
          simp [hxi, confirmUpd]
        · intro hne
          exact absurd (by simp [hxi, confirmUpd]) hne
      · constructor
        · intro heq
          exact absurd (by simpa [hxi] using heq) hxi
        · intro _
          simpa [hxi] using hx
    · refine ⟨_, reject_ok c now hfind hs, ?_⟩
      intro o' ho'
      rcases mem_map_update.mp ho' with ⟨x, hx, rfl⟩
      by_cases hxi : x.id = i
      · constructor
        · intro _
          simp [hxi, rejectUpd]
        · intro hne
          exact absurd (by simp [hxi, rejectUpd]) hne
      · constructor
        · intro heq
          exact absurd (by simpa [hxi] using heq) hxi
        · intro _
          simpa [hxi] using hx
  · intro S' c₂ now₂ h
    rcases confirm_ok_inv h with ⟨o, hfind, hs, rfl⟩
    have hfind' := find?_map_update S i (confirmUpd c now) (fun o => rfl)
    rw [hfind] at hfind'
    have hofind : o.id = i := (find?_id_mem hfind).2
    have hfind'' :
        ((S.map fun o' => if o'.id == i then confirmUpd c now o' else o').find?
          (fun x => x.id == i)) = some (confirmUpd c now o) := by
      rw [hfind']
      simp [hofind]
    have hst : (confirmUpd c now o).status ≠ .pending := by
      simp [confirmUpd]
    refine ⟨confirm_conflict c₂ now₂ hfind'' hst,
      reject_conflict c₂ now₂ hfind'' hst, ?_, ?_⟩
    · simp only [applyOp, confirm_conflict c₂ now₂ hfind'' hst]
    · simp only [applyOp, reject_conflict c₂ now₂ hfind'' hst]
  · intro S' c₂ now₂ h
    rcases reject_ok_inv h with ⟨o, hfind, hs, rfl⟩
    have hfind' := find?_map_update S i (rejectUpd c now) (fun o => rfl)
    rw [hfind] at hfind'
    have hofind : o.id = i := (find?_id_mem hfind).2
    have hfind'' :
        ((S.map fun o' => if o'.id == i then rejectUpd c now o' else o').find?
          (fun x => x.id == i)) = some (rejectUpd c now o) := by
      rw [hfind']
      simp [hofind]
    have hst : (rejectUpd c now o).status ≠ .pending := by
      simp [rejectUpd]
    refine ⟨confirm_conflict c₂ now₂ hfind'' hst,
      reject_conflict c₂ now₂ hfind'' hst, ?_, ?_⟩
    · simp only [applyOp, confirm_conflict c₂ now₂ hfind'' hst]
    · simp only [applyOp, reject_conflict c₂ now₂ hfind'' hst]

/-- Concrete run of C4: on a one-order table, confirming an unknown id is
not-found, confirming the pending order succeeds, and a second confirm or
a reject after the confirm is a conflict that changes nothing. -/
theorem C4_confirm_reject_errors_witness :
    (confirm 7 "c" 200
        [{ id := 1, timestamp := 100, customerName := "Ana",
           customerPhone := "555", roomNumber := "12", status := .pending,
           adminComment := none, confirmedAt := none, deletedAt := none,
           orderItems := [⟨"Water", 2⟩] }] = .error .notFound) ∧
    (confirm 1 "again" 300
        [{ id := 1, timestamp := 100, customerName := "Ana",
           customerPhone := "555", roomNumber := "12", status := .confirmed,
           adminComment := some "c", confirmedAt := some 200, deletedAt := none,
           orderItems := [⟨"Water", 2⟩] }] = .error .conflict) ∧
    (reject 1 "again" 300
        [{ id := 1, timestamp := 100, customerName := "Ana",
           customerPhone := "555", roomNumber := "12", status := .confirmed,
           adminComment := some "c", confirmedAt := some 200, deletedAt := none,
           orderItems := [⟨"Water", 2⟩] }] = .error .conflict) := by
  refine ⟨?_, ?_, ?_⟩
  · exact ((C4_confirm_reject_errors 7 "c" 200
      [{ id := 1, timestamp := 100, customerName := "Ana",
         customerPhone := "555", roomNumber := "12", status := .pending,
         adminComment := none, confirmedAt := none, deletedAt := none,
         orderItems := [⟨"Water", 2⟩] }]).1 (by decide)).1
  · have h := (C4_confirm_reject_errors 1 "c" 200
      [{ id := 1, timestamp := 100, customerName := "Ana",
         customerPhone := "555", roomNumber := "12", status := .pending,
         adminComment := none, confirmedAt := none, deletedAt := none,
         orderItems := [⟨"Water", 2⟩] }]).2.2.2.1
      [{ id := 1, timestamp := 100, customerName := "Ana",
         customerPhone := "555", roomNumber := "12", status := .confirmed,
         adminComment := some "c", confirmedAt := some 200, deletedAt := none,
         orderItems := [⟨"Water", 2⟩] }] "again" 300
      (by rfl)
    exact h.1
  · have h := (C4_confirm_reject_errors 1 "c" 200
      [{ id := 1, timestamp := 100, customerName := "Ana",
         customerPhone := "555", roomNumber := "12", status := .pending,
         adminComment := none, confirmedAt := none, deletedAt := none,
         orderItems := [⟨"Water", 2⟩] }]).2.2.2.1
      [{ id := 1, timestamp := 100, customerName := "Ana",
         customerPhone := "555", roomNumber := "12", status := .confirmed,
         adminComment := some "c", confirmedAt := some 200, deletedAt := none,
         orderItems := [⟨"Water", 2⟩] }] "again" 300
      (by rfl)
    exact h.2.1

theorem posItems_mem (newItems : List EditItem) (oi : OrderItem) :
    oi ∈ posItems newItems ↔
      ((⟨oi.itemName, oi.quantity⟩ : EditItem) ∈ newItems ∧ 0 < oi.quantity) := by
  constructor
  · intro hoi
    rcases List.mem_filterMap.mp hoi with ⟨it, hit, hfi⟩
    by_cases hq : it.quantity > 0
    · simp only [posItems, hq, if_true, Option.some.injEq] at hfi
      rcases hfi with rfl
      exact ⟨hit, hq⟩
    · simp [posItems, hq] at hfi
  · rintro ⟨hmem, hq⟩
    exact List.mem_filterMap.mpr ⟨⟨oi.itemName, oi.quantity⟩, hmem, by simp [hq]⟩

/-- C5: editing the items of an order that is missing is not-found, of a
pending or deleted order is a conflict that leaves the table (hence the
item list) unchanged; on a confirmed order it replaces the whole item
collection by exactly the positive-quantity entries of the request,
dropping quantity-zero entries silently and changing no status. -/
theorem C5_edit_guard (i : Nat) (newItems : List EditItem) (S : State) :
    ((∀ o ∈ S, o.id ≠ i) → editConfirmedItems i newItems S = .error .notFound) ∧
    (∀ o, S.find? (fun x => x.id == i) = some o → o.status ≠ .confirmed →
        editConfirmedItems i newItems S = .error .conflict ∧
        applyOp (.edit i newItems) S = S) ∧
    (∀ o, S.find? (fun x => x.id == i) = some o → o.status = .confirmed →
        ∃ S', editConfirmedItems i newItems S = .ok S' ∧
          S'.map (fun o' => o'.status) = S.map (fun o' => o'.status) ∧
          S'.map (fun o' => o'.id) = S.map (fun o' => o'.id) ∧
          ∀ o' ∈ S',
            (o'.id = i → o'.orderItems = posItems newItems) ∧
            (o'.id ≠ i → o' ∈ S)) ∧
    (∀ oi : OrderItem, oi ∈ posItems newItems ↔
        ((⟨oi.itemName, oi.quantity⟩ : EditItem) ∈ newItems ∧ 0 < oi.quantity)) := by
  refine ⟨?_, ?_, ?_, posItems_mem newItems⟩
  · intro h
    exact edit_notFound newItems (find?_eq_none_of_no_id h)
  · intro o hfind hs
    refine ⟨edit_conflict newItems hfind hs, ?_⟩
    simp [applyOp, edit_conflict newItems hfind hs]
  · intro o hfind hs
    refine ⟨_, edit_ok newItems hfind hs, ?_, ?_, ?_⟩
    · rw [List.map_map]
      apply List.map_congr_left
      intro x _
      by_cases hxi : x.id = i <;> simp [hxi, editUpd]
    · exact map_update_id S (fun o => rfl)
    · intro o' ho'
      rcases mem_map_update.mp ho' with ⟨x, hx, rfl⟩
      by_cases hxi : x.id = i
      · constructor
        · intro _
          simp [hxi, editUpd]
        · intro hne
          exact absurd (by simp [hxi, editUpd]) hne
      · constructor
        · intro heq
          exact absurd (by simpa [hxi] using heq) hxi
        · intro _
          simpa [hxi] using hx

/-- Concrete run of C5: editing a pending order is a conflict and leaves
the table unchanged; editing the confirmed order replaces its items with
the positive-quantity entries only. -/
theorem C5_edit_guard_witness :
    (editConfirmedItems 1 [⟨"Tea", 5⟩]
        [{ id := 1, timestamp := 100, customerName := "Ana",
           customerPhone := "555", roomNumber := "12", status := .pending,
           adminComment := none, confirmedAt := none, deletedAt := none,
           orderItems := [⟨"Water", 2⟩] }] = .error .conflict ∧
      applyOp (.edit 1 [⟨"Tea", 5⟩])
        [{ id := 1, timestamp := 100, customerName := "Ana",
           customerPhone := "555", roomNumber := "12", status := .pending,
           adminComment := none, confirmedAt := none, deletedAt := none,
           orderItems := [⟨"Water", 2⟩] }] =
        [{ id := 1, timestamp := 100, customerName := "Ana",
           customerPhone := "555", roomNumber := "12", status := .pending,
           adminComment := none, confirmedAt := none, deletedAt := none,
           orderItems := [⟨"Water", 2⟩] }]) ∧
    (∀ oi : OrderItem, oi ∈ posItems [⟨"Tea", 5⟩, ⟨"Water", 0⟩] ↔
        ((⟨oi.itemName, oi.quantity⟩ : EditItem) ∈ [(⟨"Tea", 5⟩ : EditItem), ⟨"Water", 0⟩] ∧
          0 < oi.quantity)) := by
  constructor
  · exact (C5_edit_guard 1 [⟨"Tea", 5⟩]
      [{ id := 1, timestamp := 100, customerName := "Ana",
         customerPhone := "555", roomNumber := "12", status := .pending,
         adminComment := none, confirmedAt := none, deletedAt := none,
         orderItems := [⟨"Water", 2⟩] }]).2.1
      { id := 1, timestamp := 100, customerName := "Ana",
        customerPhone := "555", roomNumber := "12", status := .pending,
        adminComment := none, confirmedAt := none, deletedAt := none,
        orderItems := [⟨"Water", 2⟩] } (by rfl) (by decide)
  · exact (C5_edit_guard 1 [⟨"Tea", 5⟩, ⟨"Water", 0⟩] []).2.2.2

/-- C10: on a confirmed order, an edit whose entries all have
non-positive quantity succeeds and leaves the order with an empty line
item list (and status still confirmed): the at-least-one-line invariant
holds only at creation. -/
theorem C10_edit_can_empty (i : Nat) (newItems : List EditItem) (S : State)
    (o : Order) (hnd : (S.map (fun x => x.id)).Nodup)
    (hfind : S.find? (fun x => x.id == i) = some o)
    (hst : o.status = .confirmed)
    (hz : ∀ it ∈ newItems, it.quantity ≤ 0) :
    ∃ S', editConfirmedItems i newItems S = .ok S' ∧
      ∀ o' ∈ S', o'.id = i → (o'.orderItems = [] ∧ o'.status = .confirmed) := by
  have hpos : posItems newItems = [] := by
    apply List.filterMap_eq_nil_iff.mpr
    intro it hit
    simp [Int.not_lt.mpr (hz it hit)]
  refine ⟨_, edit_ok newItems hfind hst, ?_⟩
  intro o' ho' hid
  rcases mem_map_update.mp ho' with ⟨x, hx, rfl⟩
  by_cases hxi : x.id = i
  · rcases find?_id_mem hfind with ⟨hom, hoi⟩
    have hxo : x = o := eq_of_mem_of_id_eq hnd hx hom (hxi.trans hoi.symm)
    subst hxo
    constructor
    · simp [hxi, editUpd, hpos]
    · simp [hxi, editUpd, hst]
  · exact absurd (by simpa [hxi] using hid) hxi

/-- Concrete run of C10: an edit of a confirmed order with an all-zero
item list succeeds and empties the order. -/
theorem C10_edit_can_empty_witness :
    ∃ S', editConfirmedItems 1 [⟨"Water", 0⟩]
        [{ id := 1, timestamp := 100, customerName := "Ana",
           customerPhone := "555", roomNumber := "12", status := .confirmed,
           adminComment := some "c", confirmedAt := some 200, deletedAt := none,
           orderItems := [⟨"Water", 2⟩] }] = .ok S' ∧
      ∀ o' ∈ S', o'.id = 1 → (o'.orderItems = [] ∧ o'.status = .confirmed) :=
  C10_edit_can_empty 1 [⟨"Water", 0⟩]
    [{ id := 1, timestamp := 100, customerName := "Ana",
       customerPhone := "555", roomNumber := "12", status := .confirmed,
       adminComment := some "c", confirmedAt := some 200, deletedAt := none,
       orderItems := [⟨"Water", 2⟩] }]
    { id := 1, timestamp := 100, customerName := "Ana",
      customerPhone := "555", roomNumber := "12", status := .confirmed,
      adminComment := some "c", confirmedAt := some 200, deletedAt := none,
      orderItems := [⟨"Water", 2⟩] }
    (by decide) (by rfl) (by decide) (by decide)

theorem length_filter_partition {α : Type} (p : α → Bool) (l : List α) :
    (l.filter p).length + (l.filter (fun a => !(p a))).length = l.length := by
  induction l with
  | nil => simp
  | cons x xs ih =>
    cases h : p x with
    | true =>
      simp [List.filter_cons, h]
      omega
    | false =>
      simp [List.filter_cons, h]
      omega

/-- C7: purge removes every deleted order and no other, it reports
exactly the number of removed rows, and afterwards no deleted order
remains. -/
theorem C7_purge_deleted (S : State) :
    (∀ o ∈ S, o.status = .deleted → o ∉ (purgeDeleted S).1) ∧
    (∀ o ∈ S, o.status ≠ .deleted → o ∈ (purgeDeleted S).1) ∧
    (∀ o ∈ (purgeDeleted S).1, o ∈ S ∧ o.status ≠ .deleted) ∧
    (purgeDeleted S).2 + ((purgeDeleted S).1).length = S.length ∧
    ((purgeDeleted S).1).filter (fun o => o.status == .deleted) = [] := by
  refine ⟨?_, ?_, ?_, ?_, ?_⟩
  · intro o ho hs hmem
    rcases List.mem_filter.mp hmem with ⟨_, hp⟩
    simp [hs] at hp
  · intro o ho hs
    refine List.mem_filter.mpr ⟨ho, ?_⟩
    simpa using hs
  · intro o ho
    rcases List.mem_filter.mp ho with ⟨hmem, hp⟩
    exact ⟨hmem, by simpa using hp⟩
  · have h := length_filter_partition (fun o : Order => o.status == .deleted) S
    simpa [purgeDeleted] using h
  · simp only [purgeDeleted, List.filter_filter]
    apply List.filter_eq_nil_iff.mpr
    intro o _
    by_cases h : o.status = .deleted <;> simp [h]

/-- Concrete run of C7: a two-order table with one deleted and one
confirmed order purges down to the confirmed order with a count of
one. -/
theorem C7_purge_deleted_witness :
    ({ id := 2, timestamp := 110, customerName := "Bo",
       customerPhone := "556", roomNumber := "13", status := .deleted,
       adminComment := some "no", confirmedAt := none, deletedAt := some 210,
       orderItems := [⟨"Tea", 1⟩] } : Order) ∉
      (purgeDeleted
        [{ id := 1, timestamp := 100, customerName := "Ana",
           customerPhone := "555", roomNumber := "12", status := .confirmed,
           adminComment := some "c", confirmedAt := some 200, deletedAt := none,
           orderItems := [⟨"Water", 2⟩] },
         { id := 2, timestamp := 110, customerName := "Bo",
           customerPhone := "556", roomNumber := "13", status := .deleted,
           adminComment := some "no", confirmedAt := none, deletedAt := some 210,
           orderItems := [⟨"Tea", 1⟩] }]).1 ∧
    ({ id := 1, timestamp := 100, customerName := "Ana",
       customerPhone := "555", roomNumber := "12", status := .confirmed,
       adminComment := some "c", confirmedAt := some 200, deletedAt := none,
       orderItems := [⟨"Water", 2⟩] } : Order) ∈
      (purgeDeleted
        [{ id := 1, timestamp := 100, customerName := "Ana",
           customerPhone := "555", roomNumber := "12", status := .confirmed,
           adminComment := some "c", confirmedAt := some 200, deletedAt := none,
           orderItems := [⟨"Water", 2⟩] },
         { id := 2, timestamp := 110, customerName := "Bo",
           customerPhone := "556", roomNumber := "13", status := .deleted,
           adminComment := some "no", confirmedAt := none, deletedAt := some 210,
           orderItems := [⟨"Tea", 1⟩] }]).1 := by
  constructor
  · exact (C7_purge_deleted
      [{ id := 1, timestamp := 100, customerName := "Ana",
         customerPhone := "555", roomNumber := "12", status := .confirmed,
         adminComment := some "c", confirmedAt := some 200, deletedAt := none,
         orderItems := [⟨"Water", 2⟩] },
       { id := 2, timestamp := 110, customerName := "Bo",
         customerPhone := "556", roomNumber := "13", status := .deleted,
         adminComment := some "no", confirmedAt := none, deletedAt := some 210,
         orderItems := [⟨"Tea", 1⟩] }]).1
      { id := 2, timestamp := 110, customerName := "Bo",
        customerPhone := "556", roomNumber := "13", status := .deleted,
        adminComment := some "no", confirmedAt := none, deletedAt := some 210,
        orderItems := [⟨"Tea", 1⟩] } (by decide) (by decide)
  · exact (C7_purge_deleted
      [{ id := 1, timestamp := 100, customerName := "Ana",
         customerPhone := "555", roomNumber := "12", status := .confirmed,
         adminComment := some "c", confirmedAt := some 200, deletedAt := none,
         orderItems := [⟨"Water", 2⟩] },
       { id := 2, timestamp := 110, customerName := "Bo",
         customerPhone := "556", roomNumber := "13", status := .deleted,
         adminComment := some "no", confirmedAt := none, deletedAt := some 210,
         orderItems := [⟨"Tea", 1⟩] }]).2.1
      { id := 1, timestamp := 100, customerName := "Ana",
        customerPhone := "555", roomNumber := "12", status := .confirmed,
        adminComment := some "c", confirmedAt := some 200, deletedAt := none,
        orderItems := [⟨"Water", 2⟩] } (by decide) (by decide)

/-- C9: a valid submission emits exactly one new-order notification and
persists the pending order; an invalid one emits none and persists
nothing; confirm, reject, edit and purge emit none; and neither the
stored state nor the emitted notification depends on whether the email
call succeeds. -/
theorem C9_notification_once (inp : SubmitInput) (now : Nat) (b : Bool) (S : State)
    (i : Nat) (c : String) (now₂ : Nat) (newItems : List EditItem) :
    (submitValid inp = true →
        opNotifs (.submit inp now b) =
          [⟨pyStrip inp.customerName, pyStrip inp.customerPhone,
            pyStrip inp.roomNumber, orderDetails inp.itemQtys⟩] ∧
        submit inp now S = .ok (S ++ [newOrderOf inp now S]) ∧
        (newOrderOf inp now S).status = .pending) ∧
    (submitValid inp = false →
        opNotifs (.submit inp now b) = [] ∧
        submit inp now S = .error .validation) ∧
    opNotifs (.confirm i c now₂) = [] ∧
    opNotifs (.reject i c now₂) = [] ∧
    opNotifs (.edit i newItems) = [] ∧
    opNotifs .purge = [] ∧
    (∀ b₂ : Bool,
        applyOp (.submit inp now b) S = applyOp (.submit inp now b₂) S ∧
        opNotifs (.submit inp now b) = opNotifs (.submit inp now b₂)) := by
  refine ⟨?_, ?_, rfl, rfl, rfl, rfl, ?_⟩
  · intro hv
    exact ⟨by simp [opNotifs, hv], submit_ok now S hv, rfl⟩
  · intro hv
    exact ⟨by simp [opNotifs, hv], submit_err now S hv⟩
  · intro b₂
    exact ⟨rfl, rfl⟩

/-- Concrete run of C9: a valid submission emits its single notification
whether or not the mail call would succeed. -/
theorem C9_notification_once_witness :
    (opNotifs (.submit ⟨"Ana", "555", "12", [("Water", some 2)]⟩ 100 false) =
        [⟨"Ana", "555", "12", [("Water", 2)]⟩] ∧
      submit ⟨"Ana", "555", "12", [("Water", some 2)]⟩ 100 [] =
        .ok ([] ++ [newOrderOf ⟨"Ana", "555", "12", [("Water", some 2)]⟩ 100 []]) ∧
      (newOrderOf ⟨"Ana", "555", "12", [("Water", some 2)]⟩ 100 []).status =
        .pending) ∧
    opNotifs (.confirm 1 "ok" 200) = [] := by
  constructor
  · have h := (C9_notification_once ⟨"Ana", "555", "12", [("Water", some 2)]⟩
      100 false [] 1 "ok" 200 []).1 (by decide)
    refine ⟨?_, h.2.1, h.2.2⟩
    rw [h.1]
    decide
  · exact (C9_notification_once ⟨"Ana", "555", "12", [("Water", some 2)]⟩
      100 false [] 1 "ok" 200 []).2.2.1

/-! ### The weekly report (admin_reports_weekly in app.py).
The route computes the default window of the trailing seven days from
utcnow, overrides either end from the query string (a parsed end date is
moved to 23:59:59 of that day), selects the confirmed orders whose
confirmed_at lies in the closed window, accumulates quantities per item
name in a dict in first-seen order, and sorts the items by total
quantity descending with Python's stable sorted. -/

def resolveStart (now : Nat) (sp : Option Nat) : Nat :=
  match sp with
  | some s => s
  | none => now - 7 * 86400

def resolveEnd (now : Nat) (ep : Option Nat) : Nat :=
  match ep with
  | some e => e + 86399
  | none => now

def inReportWindow (s e : Nat) (o : Order) : Bool :=
  o.status == .confirmed &&
    (match o.confirmedAt with
     | some t => decide (s ≤ t) && decide (t ≤ e)
     | none => false)

def includedOrders (s e : Nat) (S : State) : List Order :=
  S.filter (inReportWindow s e)

/-- One step of the item_totals dict accumulation. -/
def upsertItem (acc : List (String × Int)) (it : OrderItem) : List (String × Int) :=
  if acc.any (fun p => p.1 == it.itemName) then
    acc.map (fun p => if p.1 == it.itemName then (p.1, p.2 + it.quantity) else p)
  else acc ++ [(it.itemName, it.quantity)]

/-- The item_totals dict of the report: iterate the included orders and
their items, keyed by exact item name, in insertion order. -/
def itemTotals (orders : List Order) : List (String × Int) :=
  (orders.flatMap (fun o => o.orderItems)).foldl upsertItem []

/-- Comparison of the final sorted call: by total quantity, descending. -/
def qtyDescLe (a b : String × Int) : Bool := decide (b.2 ≤ a.2)

structure WeeklyReport where
  items : List (String × Int)
  totalOrders : Nat
  startDate : Nat
  endDate : Nat
deriving DecidableEq, Repr

def weeklyReport (now : Nat) (sp ep : Option Nat) (S : State) : WeeklyReport :=
  let s := resolveStart now sp
  let e := resolveEnd now ep
  let included := includedOrders s e S
  { items := isort qtyDescLe (itemTotals included)
    totalOrders := included.length
    startDate := s
    endDate := e }

/-- Total reported for one item name: the sum of the entries carrying
exactly that name (at most one in a well-formed totals list). -/
def reportTotal (out : List (String × Int)) (n : String) : Int :=
  ((out.filter (fun p => p.1 == n)).map (fun p => p.2)).sum

/-- Ground-truth total: sum of the quantities of the line items named
exactly n across the given orders. -/
def itemsSum (orders : List Order) (n : String) : Int :=
  (((orders.flatMap (fun o => o.orderItems)).filter
      (fun it => it.itemName == n)).map (fun it => it.quantity)).sum

def itemQtySum (l : List OrderItem) (n : String) : Int :=
  ((l.filter (fun it => it.itemName == n)).map (fun it => it.quantity)).sum

/-- Item names in first-seen order, as Python dict insertion order
records them. -/
def firstSeenKeys (names : List String) : List String :=
  names.foldl (fun ks nm => if ks.any (fun k => k == nm) then ks else ks ++ [nm]) []

theorem qtyDescLe_total (a b : String × Int) :
    qtyDescLe a b = true ∨ qtyDescLe b a = true := by
  simp only [qtyDescLe, decide_eq_true_eq]
  exact Int.le_total b.2 a.2

theorem qtyDescLe_trans (a b c : String × Int) :
    qtyDescLe a b = true → qtyDescLe b c = true → qtyDescLe a c = true := by
  simp only [qtyDescLe, decide_eq_true_eq]
  intro h1 h2
  exact Int.le_trans h2 h1

theorem reportTotal_nil (n : String) : reportTotal [] n = 0 := rfl

theorem reportTotal_cons (p : String × Int) (l : List (String × Int)) (n : String) :
    reportTotal (p :: l) n = (if p.1 == n then p.2 else 0) + reportTotal l n := by
  by_cases h : p.1 == n
  · simp [reportTotal, List.filter_cons, h]
  · simp [reportTotal, List.filter_cons, h]

theorem reportTotal_append (l₁ l₂ : List (String × Int)) (n : String) :
    reportTotal (l₁ ++ l₂) n = reportTotal l₁ n + reportTotal l₂ n := by
  simp [reportTotal, List.filter_append]

theorem reportTotal_perm {l l' : List (String × Int)} (h : l.Perm l') (n : String) :
    reportTotal l n = reportTotal l' n :=
  List.Perm.sum_eq (((h.filter _)).map _)

theorem itemQtySum_cons (it : OrderItem) (l : List OrderItem) (n : String) :
    itemQtySum (it :: l) n =
      (if it.itemName == n then it.quantity else 0) + itemQtySum l n := by
  by_cases h : it.itemName == n
  · simp [itemQtySum, List.filter_cons, h]
  · simp [itemQtySum, List.filter_cons, h]

theorem keys_upsertItem (acc : List (String × Int)) (it : OrderItem) :
    (upsertItem acc it).map Prod.fst =
      (if (acc.map Prod.fst).any (fun k => k == it.itemName) then acc.map Prod.fst
       else acc.map Prod.fst ++ [it.itemName]) := by
  have hany : (acc.map Prod.fst).any (fun k => k == it.itemName) =
      acc.any (fun p => p.1 == it.itemName) := by
    induction acc with
    | nil => rfl
    | cons p acc ih => simp [List.any_cons, ih]
  rw [hany]
  by_cases h : acc.any (fun p => p.1 == it.itemName)
  · simp only [upsertItem, h, if_true]
    rw [List.map_map]
    apply List.map_congr_left
    intro p _
    by_cases hp : p.1 = it.itemName <;> simp [hp]
  · simp only [upsertItem, h]
    simp

theorem keys_nodup_upsertItem {acc : List (String × Int)} (it : OrderItem)
    (hnd : (acc.map Prod.fst).Nodup) : ((upsertItem acc it).map Prod.fst).Nodup := by
  rw [keys_upsertItem]
  by_cases h : (acc.map Prod.fst).any (fun k => k == it.itemName)
  · simpa [h] using hnd
  · simp only [h, Bool.false_eq_true, if_false]
    rw [List.nodup_append]
    refine ⟨hnd, by simp, ?_⟩
    intro k hk hk1
    rw [List.mem_singleton] at hk1
    subst hk1
    exact h (List.any_eq_true.mpr ⟨it.itemName, hk, by simp⟩)

theorem reportTotal_upsertItem (acc : List (String × Int)) (it : OrderItem)
    (n : String) (hnd : (acc.map Prod.fst).Nodup) :
    reportTotal (upsertItem acc it) n =
      reportTotal acc n + (if it.itemName == n then it.quantity else 0) := by
  by_cases h : acc.any (fun p => p.1 == it.itemName)
  · simp only [upsertItem, h, if_true]
    rcases List.any_eq_true.mp h with ⟨p₀, hp₀, hp₀n⟩
    clear h
    induction acc with
    | nil => cases hp₀
    | cons p acc ih =>
      simp only [List.map_cons, List.nodup_cons] at hnd
      rcases hnd with ⟨hpn, hnd⟩
      by_cases hp : p.1 == it.itemName
      · have hmap : acc.map (fun p => if p.1 == it.itemName then (p.1, p.2 + it.quantity) else p) = acc := by
          conv_rhs => rw [show acc = acc.map id from (List.map_id acc).symm]
          apply List.map_congr_left
          intro q hq
          have : q.1 ≠ it.itemName := by
            intro hcon
            apply hpn
            rw [← hcon] at hp
            have : p.1 = q.1 := by simpa using hp
            rw [this]
            exact List.mem_map.mpr ⟨q, hq, rfl⟩
          simp [this]
        simp only [List.map_cons, hp, if_true, hmap]
        rw [reportTotal_cons, reportTotal_cons]
        have hpeq : p.1 = it.itemName := by simpa using hp
        by_cases hn : it.itemName == n
        · have hn' : it.itemName = n := by simpa using hn
          simp only [hpeq, hn, hn', beq_self_eq_true, if_true]
          omega
        · have : (p.1 == n) = false := by
            rw [hpeq]
            simpa using hn
          simp only [this, hn, Bool.false_eq_true, if_false]
          omega
      · rcases List.mem_cons.mp hp₀ with rfl | hp₀m
        · exact absurd hp₀n (by simpa using hp)
        · simp only [List.map_cons, hp, Bool.false_eq_true, if_false]
          rw [reportTotal_cons, reportTotal_cons]
          rw [ih hnd hp₀m]
          omega
  · simp only [upsertItem, h, Bool.false_eq_true, if_false]
    rw [reportTotal_append, reportTotal_cons, reportTotal_nil]
    by_cases hn : it.itemName == n <;> simp [hn]

theorem reportTotal_foldl (l : List OrderItem) (n : String) :
    ∀ acc : List (String × Int), (acc.map Prod.fst).Nodup →
      reportTotal (l.foldl upsertItem acc) n = reportTotal acc n + itemQtySum l n := by
  induction l with
  | nil => intro acc _; simp [itemQtySum]
  | cons it l ih =>
    intro acc hnd
    rw [List.foldl_cons, ih (upsertItem acc it) (keys_nodup_upsertItem it hnd),
      reportTotal_upsertItem acc it n hnd, itemQtySum_cons]
    omega

theorem reportTotal_itemTotals (orders : List Order) (n : String) :
    reportTotal (itemTotals orders) n = itemsSum orders n := by
  have h := reportTotal_foldl (orders.flatMap (fun o => o.orderItems)) n [] (by simp)
  simpa [itemTotals, itemsSum, itemQtySum, reportTotal_nil] using h

theorem keys_foldl_upsertItem (l : List OrderItem) :
    ∀ acc : List (String × Int),
      (l.foldl upsertItem acc).map Prod.fst =
        (l.map (fun it => it.itemName)).foldl
          (fun ks nm => if ks.any (fun k => k == nm) then ks else ks ++ [nm])
          (acc.map Prod.fst) := by
  induction l with
  | nil => intro acc; rfl
  | cons it l ih =>
    intro acc
    rw [List.foldl_cons, List.map_cons, List.foldl_cons, ih (upsertItem acc it),
      keys_upsertItem]

theorem itemTotals_keys_firstSeen (orders : List Order) :
    (itemTotals orders).map Prod.fst =
      firstSeenKeys ((orders.flatMap (fun o => o.orderItems)).map
        (fun it => it.itemName)) := by
  have h := keys_foldl_upsertItem (orders.flatMap (fun o => o.orderItems)) []
  simpa [itemTotals, firstSeenKeys] using h

theorem itemTotals_keys_nodup (orders : List Order) :
    ((itemTotals orders).map Prod.fst).Nodup := by
  have : ∀ (l : List OrderItem) (acc : List (String × Int)),
      (acc.map Prod.fst).Nodup → ((l.foldl upsertItem acc).map Prod.fst).Nodup := by
    intro l
    induction l with
    | nil => intro acc h; exact h
    | cons it l ih =>
      intro acc h
      exact ih (upsertItem acc it) (keys_nodup_upsertItem it h)
  exact this (orders.flatMap (fun o => o.orderItems)) [] (by simp)

theorem inReportWindow_iff (s e : Nat) (o : Order) :
    inReportWindow s e o = true ↔
      (o.status = .confirmed ∧
        ∃ t, o.confirmedAt = some t ∧ s ≤ t ∧ t ≤ e) := by
  unfold inReportWindow
  rcases hca : o.confirmedAt with _ | t
  · simp [hca]
  · simp [hca]

/-- C2: the report window is the given closed range, with a parsed end
date pushed to the last second of its day and the default window being
the trailing seven days ending now; exactly the confirmed orders whose
confirmation time lies in the window are counted and aggregated; every
item total is the sum of the quantities under exactly that item name
across the included orders; and an order that is pending, deleted or
outside the window contributes nothing to the report. -/
theorem C2_weekly_report (now : Nat) (sp ep : Option Nat) (S : State) :
    (sp = none → (weeklyReport now sp ep S).startDate = now - 7 * 86400) ∧
    (∀ d, sp = some d → (weeklyReport now sp ep S).startDate = d) ∧
    (ep = none → (weeklyReport now sp ep S).endDate = now) ∧
    (∀ d, ep = some d → (weeklyReport now sp ep S).endDate = d + 86399) ∧
    (∀ o, inReportWindow (resolveStart now sp) (resolveEnd now ep) o = true ↔
        (o.status = .confirmed ∧ ∃ t, o.confirmedAt = some t ∧
          resolveStart now sp ≤ t ∧ t ≤ resolveEnd now ep)) ∧
    (weeklyReport now sp ep S).totalOrders =
      (includedOrders (resolveStart now sp) (resolveEnd now ep) S).length ∧
    (∀ n, reportTotal (weeklyReport now sp ep S).items n =
        itemsSum (includedOrders (resolveStart now sp) (resolveEnd now ep) S) n) ∧
    (∀ o, ¬(o.status = .confirmed ∧ ∃ t, o.confirmedAt = some t ∧
          resolveStart now sp ≤ t ∧ t ≤ resolveEnd now ep) →
        weeklyReport now sp ep (S ++ [o]) = weeklyReport now sp ep S) := by
  refine ⟨?_, ?_, ?_, ?_, ?_, rfl, ?_, ?_⟩
  · intro h
    simp [weeklyReport, resolveStart, h]
  · intro d h
    simp [weeklyReport, resolveStart, h]
  · intro h
    simp [weeklyReport, resolveEnd, h]
  · intro d h
    simp [weeklyReport, resolveEnd, h]
  · exact inReportWindow_iff _ _
  · intro n
    have hperm := isort_perm qtyDescLe
      (itemTotals (includedOrders (resolveStart now sp) (resolveEnd now ep) S))
    rw [weeklyReport]
    rw [reportTotal_perm hperm n]
    exact reportTotal_itemTotals _ n
  · intro o ho
    have hfalse : inReportWindow (resolveStart now sp) (resolveEnd now ep) o = false := by
      rcases hb : inReportWindow (resolveStart now sp) (resolveEnd now ep) o with _ | _
      · rfl
      · exact absurd ((inReportWindow_iff _ _ o).mp hb) ho
    have hincl : includedOrders (resolveStart now sp) (resolveEnd now ep) (S ++ [o]) =
        includedOrders (resolveStart now sp) (resolveEnd now ep) S := by
      simp [includedOrders, List.filter_append, hfalse]
    rw [weeklyReport, weeklyReport, hincl]

/-- Concrete run of C2: with a one-week window, the two confirmed orders
for Water inside the window total five across two orders; a later
confirmed order, a pending and a deleted order contribute nothing; and
differently-cased names stay separate entries. -/
theorem C2_weekly_report_witness :
    ((weeklyReport 0 (some 0) (some 518400)
        [{ id := 1, timestamp := 10, customerName := "A", customerPhone := "1",
           roomNumber := "7", status := .confirmed, adminComment := none,
           confirmedAt := some 86400, deletedAt := none,
           orderItems := [⟨"Water", 3⟩] },
         { id := 2, timestamp := 20, customerName := "B", customerPhone := "2",
           roomNumber := "8", status := .confirmed, adminComment := none,
           confirmedAt := some 259200, deletedAt := none,
           orderItems := [⟨"Water", 2⟩, ⟨"water", 4⟩] },
         { id := 3, timestamp := 30, customerName := "C", customerPhone := "3",
           roomNumber := "9", status := .pending, adminComment := none,
           confirmedAt := none, deletedAt := none,
           orderItems := [⟨"Water", 10⟩] }]).endDate = 518400 + 86399) ∧
    (∀ n, reportTotal (weeklyReport 0 (some 0) (some 518400)
        [{ id := 1, timestamp := 10, customerName := "A", customerPhone := "1",
           roomNumber := "7", status := .confirmed, adminComment := none,
           confirmedAt := some 86400, deletedAt := none,
           orderItems := [⟨"Water", 3⟩] },
         { id := 2, timestamp := 20, customerName := "B", customerPhone := "2",
           roomNumber := "8", status := .confirmed, adminComment := none,
           confirmedAt := some 259200, deletedAt := none,
           orderItems := [⟨"Water", 2⟩, ⟨"water", 4⟩] },
         { id := 3, timestamp := 30, customerName := "C", customerPhone := "3",
           roomNumber := "9", status := .pending, adminComment := none,
           confirmedAt := none, deletedAt := none,
           orderItems := [⟨"Water", 10⟩] }]).items n =
      itemsSum (includedOrders (resolveStart 0 (some 0)) (resolveEnd 0 (some 518400))
        [{ id := 1, timestamp := 10, customerName := "A", customerPhone := "1",
           roomNumber := "7", status := .confirmed, adminComment := none,
           confirmedAt := some 86400, deletedAt := none,
           orderItems := [⟨"Water", 3⟩] },
         { id := 2, timestamp := 20, customerName := "B", customerPhone := "2",
           roomNumber := "8", status := .confirmed, adminComment := none,
           confirmedAt := some 259200, deletedAt := none,
           orderItems := [⟨"Water", 2⟩, ⟨"water", 4⟩] },
         { id := 3, timestamp := 30, customerName := "C", customerPhone := "3",
           roomNumber := "9", status := .pending, adminComment := none,
           confirmedAt := none, deletedAt := none,
           orderItems := [⟨"Water", 10⟩] }]) n) ∧
    (weeklyReport 0 (some 0) (some 518400)
        ([{ id := 1, timestamp := 10, customerName := "A", customerPhone := "1",
            roomNumber := "7", status := .confirmed, adminComment := none,
            confirmedAt := some 86400, deletedAt := none,
            orderItems := [⟨"Water", 3⟩] }] ++
          [{ id := 4, timestamp := 40, customerName := "D", customerPhone := "4",
             roomNumber := "10", status := .confirmed, adminComment := none,
             confirmedAt := some 691200, deletedAt := none,
             orderItems := [⟨"Water", 10⟩] }]) =
      weeklyReport 0 (some 0) (some 518400)
        [{ id := 1, timestamp := 10, customerName := "A", customerPhone := "1",
           roomNumber := "7", status := .confirmed, adminComment := none,
           confirmedAt := some 86400, deletedAt := none,
           orderItems := [⟨"Water", 3⟩] }]) ∧
    reportTotal [("Water", 5), ("water", 4)] "Water" = 5 ∧
    reportTotal [("Water", 5), ("water", 4)] "water" = 4 := by
  refine ⟨?_, ?_, ?_, by decide, by decide⟩
  · exact (C2_weekly_report 0 (some 0) (some 518400) _).2.2.2.1 518400 rfl
  · exact (C2_weekly_report 0 (some 0) (some 518400) _).2.2.2.2.2.2.1
  · refine (C2_weekly_report 0 (some 0) (some 518400) _).2.2.2.2.2.2.2
      { id := 4, timestamp := 40, customerName := "D", customerPhone := "4",
        roomNumber := "10", status := .confirmed, adminComment := none,
        confirmedAt := some 691200, deletedAt := none,
        orderItems := [⟨"Water", 10⟩] } ?_
    rintro ⟨-, t, ht, -, h2⟩
    injection ht with ht
    rw [show resolveEnd 0 (some 518400) = 604799 from rfl] at h2
    omega

/-- C6: the weekly report item list is sorted by total quantity in
descending order, two entries with equal totals keep their relative
order from the accumulation list (whose key order is the first-seen
order of the item names while scanning the included orders), so ties
break by first appearance, not alphabetically. -/
theorem C6_report_sorting (now : Nat) (sp ep : Option Nat) (S : State) :
    ((weeklyReport now sp ep S).items.Pairwise (fun a b => b.2 ≤ a.2)) ∧
    (∀ a b : String × Int, a.2 = b.2 →
        [a, b].Sublist
          (itemTotals (includedOrders (resolveStart now sp) (resolveEnd now ep) S)) →
        [a, b].Sublist (weeklyReport now sp ep S).items) ∧
    ((itemTotals (includedOrders (resolveStart now sp) (resolveEnd now ep) S)).map
        Prod.fst =
      firstSeenKeys
        (((includedOrders (resolveStart now sp) (resolveEnd now ep) S).flatMap
            (fun o => o.orderItems)).map (fun it => it.itemName))) := by
  refine ⟨?_, ?_, itemTotals_keys_firstSeen _⟩
  · have h := isort_pairwise qtyDescLe_total qtyDescLe_trans
      (itemTotals (includedOrders (resolveStart now sp) (resolveEnd now ep) S))
    rw [weeklyReport]
    refine h.imp ?_
    intro a b hab
    simpa [qtyDescLe] using hab
  · intro a b hab hsub
    rw [weeklyReport]
    refine isort_stable qtyDescLe_total qtyDescLe_trans ?_ hsub
    simp [qtyDescLe, hab]

/-- Concrete run of C6: Water is seen before Tea and both total two, so
Water stays ahead of Tea in the sorted output while Juice with three
leads. -/
theorem C6_report_sorting_witness :
    ((weeklyReport 0 (some 0) (some 518400)
        [{ id := 1, timestamp := 10, customerName := "A", customerPhone := "1",
           roomNumber := "7", status := .confirmed, adminComment := none,
           confirmedAt := some 86400, deletedAt := none,
           orderItems := [⟨"Water", 2⟩] },
         { id := 2, timestamp := 20, customerName := "B", customerPhone := "2",
           roomNumber := "8", status := .confirmed, adminComment := none,
           confirmedAt := some 259200, deletedAt := none,
           orderItems := [⟨"Tea", 2⟩, ⟨"Juice", 3⟩] }]).items.Pairwise
      (fun a b => b.2 ≤ a.2)) ∧
    [("Water", (2 : Int)), ("Tea", 2)].Sublist
      (weeklyReport 0 (some 0) (some 518400)
        [{ id := 1, timestamp := 10, customerName := "A", customerPhone := "1",
           roomNumber := "7", status := .confirmed, adminComment := none,
           confirmedAt := some 86400, deletedAt := none,
           orderItems := [⟨"Water", 2⟩] },
         { id := 2, timestamp := 20, customerName := "B", customerPhone := "2",
           roomNumber := "8", status := .confirmed, adminComment := none,
           confirmedAt := some 259200, deletedAt := none,
           orderItems := [⟨"Tea", 2⟩, ⟨"Juice", 3⟩] }]).items := by
  constructor
  · exact (C6_report_sorting 0 (some 0) (some 518400)
      [{ id := 1, timestamp := 10, customerName := "A", customerPhone := "1",
         roomNumber := "7", status := .confirmed, adminComment := none,
         confirmedAt := some 86400, deletedAt := none,
         orderItems := [⟨"Water", 2⟩] },
       { id := 2, timestamp := 20, customerName := "B", customerPhone := "2",
         roomNumber := "8", status := .confirmed, adminComment := none,
         confirmedAt := some 259200, deletedAt := none,
         orderItems := [⟨"Tea", 2⟩, ⟨"Juice", 3⟩] }]).1
  · exact (C6_report_sorting 0 (some 0) (some 518400)
      [{ id := 1, timestamp := 10, customerName := "A", customerPhone := "1",
         roomNumber := "7", status := .confirmed, adminComment := none,
         confirmedAt := some 86400, deletedAt := none,
         orderItems := [⟨"Water", 2⟩] },
       { id := 2, timestamp := 20, customerName := "B", customerPhone := "2",
         roomNumber := "8", status := .confirmed, adminComment := none,
         confirmedAt := some 259200, deletedAt := none,
         orderItems := [⟨"Tea", 2⟩, ⟨"Juice", 3⟩] }]).2.1
      ("Water", 2) ("Tea", 2) (by decide) (by decide)

/-! ### The grouped weekly summary (analyze_orders.py).
The script reads orders.csv, buckets each row by its timestamp with the
pandas weekly frequency (weeks ending on Sunday, right-closed and
right-labeled, so a row lands in the bucket labeled by the first Sunday
on or after its date), and builds the per-item weekly summary with a
groupby on (item_name, week); pandas groupby with default sort orders
the result rows by the group key tuple, item name first.  Timestamps are
days since 1970-01-01, which was a Thursday, so Sundays are the days
congruent to 3 modulo 7. -/

/-- Modelled from the spec: the orders.csv export consumed by
analyze_orders.py is produced outside this repository; following the
specification of the grouped report, a row is a confirmed order line
with its item name, its confirmation day and its quantity. -/
structure CsvRow where
  itemName : String
  timestamp : Nat
  quantity : Int
deriving DecidableEq, Repr

/-- The pandas weekly bucket label of a day: the first day congruent to
3 modulo 7 (a Sunday) on or after it. -/
def weekBucket (d : Nat) : Nat := d + (10 - d % 7) % 7

def rowKey (r : CsvRow) : String × Nat := (r.itemName, weekBucket r.timestamp)

/-- Code-point comparison of strings as Python orders them. -/
def charListLt : List Char → List Char → Bool
  | [], [] => false
  | [], _ :: _ => true
  | _ :: _, [] => false
  | a :: as, b :: bs =>
    if a < b then true
    else if b < a then false
    else charListLt as bs

/-- The groupby key order: item name ascending, then bucket ascending. -/
def keyLe (a b : String × Nat) : Bool :=
  charListLt a.1.data b.1.data || (a.1 == b.1 && decide (a.2 ≤ b.2))

/-- The distinct group keys in first-seen order (the sort fixes the final
order, so only the set matters). -/
def keyList (rows : List CsvRow) : List (String × Nat) :=
  (rows.map rowKey).foldl
    (fun ks k => if ks.any (fun k2 => k2 == k) then ks else ks ++ [k]) []

/-- The summed quantity of one group. -/
def keySum (rows : List CsvRow) (k : String × Nat) : Int :=
  ((rows.filter (fun r => rowKey r == k)).map (fun r => r.quantity)).sum

/-- The weekly_summary frame of analyze_weekly_orders: one row per
(item name, week) group, quantities summed, ordered by the group key. -/
def weeklySummary (rows : List CsvRow) : List ((String × Nat) × Int) :=
  (isort keyLe (keyList rows)).map (fun k => (k, keySum rows k))

theorem charListLt_trans :
    ∀ {x y z : List Char}, charListLt x y = true → charListLt y z = true →
      charListLt x z = true
  | [], [], _ :: _, _, _ => rfl
  | [], _ :: _, _ :: _, _, _ => rfl
  | a :: as, b :: bs, c :: cs, h1, h2 => by
    simp only [charListLt] at h1 h2 ⊢
    by_cases hab : a < b
    · by_cases hbc : b < c
      · simp [lt_trans hab hbc]
      · simp only [hbc, if_false] at h2
        by_cases hcb : c < b
        · simp [hcb] at h2
        · have : b = c := le_antisymm (not_lt.mp hcb) (not_lt.mp hbc)
          subst this
          simp [hab]
    · simp only [hab, if_false] at h1
      by_cases hba : b < a
      · simp [hba] at h1
      · have hab' : a = b := le_antisymm (not_lt.mp hba) (not_lt.mp hab)
        subst hab'
        simp only [if_neg (lt_irrefl a)] at h1
        by_cases hac : a < c
        · simp [hac]
        · simp only [hac, if_false] at h2 ⊢
          by_cases hca : c < a
          · simp [hca] at h2
          · simp only [hca, if_false] at h2 ⊢
            exact charListLt_trans h1 h2

theorem charListLt_trichotomy :
    ∀ (x y : List Char), charListLt x y = true ∨ charListLt y x = true ∨ x = y
  | [], [] => Or.inr (Or.inr rfl)
  | [], _ :: _ => Or.inl rfl
  | _ :: _, [] => Or.inr (Or.inl rfl)
  | a :: as, b :: bs => by
    by_cases hab : a < b
    · exact Or.inl (by simp [charListLt, hab])
    · by_cases hba : b < a
      · exact Or.inr (Or.inl (by simp [charListLt, hba]))
      · have : a = b := le_antisymm (not_lt.mp hba) (not_lt.mp hab)
        subst this
        rcases charListLt_trichotomy as bs with h | h | h
        · exact Or.inl (by simp [charListLt, h])
        · exact Or.inr (Or.inl (by simp [charListLt, h]))
        · exact Or.inr (Or.inr (by rw [h]))

theorem keyLe_iff (a b : String × Nat) :
    keyLe a b = true ↔
      (charListLt a.1.data b.1.data = true ∨ (a.1 = b.1 ∧ a.2 ≤ b.2)) := by
  simp [keyLe, Bool.or_eq_true, Bool.and_eq_true]

theorem string_eq_of_data_eq {s t : String} (h : s.data = t.data) : s = t := by
  cases s
  cases t
  exact congrArg String.mk h

theorem keyLe_total (a b : String × Nat) : keyLe a b = true ∨ keyLe b a = true := by
  rcases charListLt_trichotomy a.1.data b.1.data with h | h | h
  · exact Or.inl ((keyLe_iff a b).mpr (Or.inl h))
  · exact Or.inr ((keyLe_iff b a).mpr (Or.inl h))
  · have heq : a.1 = b.1 := string_eq_of_data_eq h
    rcases Nat.le_total a.2 b.2 with h2 | h2
    · exact Or.inl ((keyLe_iff a b).mpr (Or.inr ⟨heq, h2⟩))
    · exact Or.inr ((keyLe_iff b a).mpr (Or.inr ⟨heq.symm, h2⟩))

theorem keyLe_trans (a b c : String × Nat) :
    keyLe a b = true → keyLe b c = true → keyLe a c = true := by
  intro h1 h2
  rcases (keyLe_iff a b).mp h1 with h1 | ⟨h1e, h1n⟩
  · rcases (keyLe_iff b c).mp h2 with h2 | ⟨h2e, _⟩
    · exact (keyLe_iff a c).mpr (Or.inl (charListLt_trans h1 h2))
    · exact (keyLe_iff a c).mpr (Or.inl (by rw [← h2e]; exact h1))
  · rcases (keyLe_iff b c).mp h2 with h2 | ⟨h2e, h2n⟩
    · exact (keyLe_iff a c).mpr (Or.inl (by rw [h1e]; exact h2))
    · exact (keyLe_iff a c).mpr (Or.inr ⟨h1e.trans h2e, Nat.le_trans h1n h2n⟩)

theorem mem_firstSeenFold {α : Type} [BEq α] [LawfulBEq α] :
    ∀ (l acc : List α) (x : α),
      (x ∈ l.foldl
          (fun ks k => if ks.any (fun k2 => k2 == k) then ks else ks ++ [k]) acc) ↔
        (x ∈ acc ∨ x ∈ l)
  | [], acc, x => by simp
  | k :: l, acc, x => by
    rw [List.foldl_cons]
    by_cases hany : acc.any (fun k2 => k2 == k) = true
    · rw [if_pos hany, mem_firstSeenFold l acc x]
      rcases List.any_eq_true.mp hany with ⟨k2, hk2, hk2e⟩
      have : k ∈ acc := by
        rcases eq_of_beq hk2e with rfl
        exact hk2
      constructor
      · rintro (h | h)
        · exact Or.inl h
        · exact Or.inr (List.mem_cons.mpr (Or.inr h))
      · rintro (h | h)
        · exact Or.inl h
        · rcases List.mem_cons.mp h with rfl | h
          · exact Or.inl this
          · exact Or.inr h
    · rw [if_neg hany, mem_firstSeenFold l (acc ++ [k]) x]
      simp only [List.mem_append, List.mem_singleton, List.mem_cons]
      tauto

/-- C8 as the spec words the ordering is false: on two rows whose later
week carries the alphabetically earlier item name, the summary is not
ordered by bucket date first. -/
theorem C8_claim_order_counterexample :
    ¬ ((weeklySummary [⟨"B", 4, 1⟩, ⟨"A", 11, 1⟩]).Pairwise
        (fun a b => a.1.2 < b.1.2 ∨
          (a.1.2 = b.1.2 ∧ ¬ charListLt b.1.1.data a.1.1.data = true))) := by
  decide

/-- C8 amended: every row of the input (modelled per the spec as the
confirmed orders with their confirmation days) is bucketed to the first
Sunday on or after its day; the per-item weekly summary holds one row
per (item name, week) group carrying the summed quantity, is ordered by
item name ascending and then bucket date ascending, and an empty input
yields an empty summary rather than an error. -/
theorem C8_grouped_weekly (rows : List CsvRow) :
    (∀ d : Nat, d ≤ weekBucket d ∧ weekBucket d % 7 = 3 ∧
        ∀ s, d ≤ s → s % 7 = 3 → weekBucket d ≤ s) ∧
    ((weeklySummary rows).Pairwise (fun a b =>
        charListLt a.1.1.data b.1.1.data = true ∨
          (a.1.1 = b.1.1 ∧ a.1.2 ≤ b.1.2))) ∧
    (∀ kv ∈ weeklySummary rows, kv.2 = keySum rows kv.1) ∧
    (∀ kv ∈ weeklySummary rows, ∃ r ∈ rows, rowKey r = kv.1) ∧
    (∀ r ∈ rows, ∃ kv ∈ weeklySummary rows, kv.1 = rowKey r) ∧
    weeklySummary [] = [] := by
  have hmemKeys : ∀ k, k ∈ isort keyLe (keyList rows) ↔
      ∃ r ∈ rows, rowKey r = k := by
    intro k
    rw [(isort_perm keyLe (keyList rows)).mem_iff]
    unfold keyList
    rw [mem_firstSeenFold]
    simp [List.mem_map, eq_comm]
  refine ⟨?_, ?_, ?_, ?_, ?_, rfl⟩
  · intro d
    refine ⟨?_, ?_, ?_⟩
    · unfold weekBucket
      omega
    · unfold weekBucket
      omega
    · intro s h1 h2
      unfold weekBucket
      omega
  · have h := isort_pairwise keyLe_total keyLe_trans (keyList rows)
    unfold weeklySummary
    rw [List.pairwise_map]
    refine h.imp ?_
    intro a b hab
    exact (keyLe_iff a b).mp hab
  · intro kv hkv
    rcases List.mem_map.mp hkv with ⟨k, _, rfl⟩
    rfl
  · intro kv hkv
    rcases List.mem_map.mp hkv with ⟨k, hk, rfl⟩
    exact (hmemKeys k).mp hk
  · intro r hr
    refine ⟨(rowKey r, keySum rows (rowKey r)), ?_, rfl⟩
    exact List.mem_map.mpr ⟨rowKey r, (hmemKeys (rowKey r)).mpr ⟨r, hr, rfl⟩, rfl⟩

/-- Concrete run of C8: day 4 (a Monday) is bucketed to day 10 (the next
Sunday), the group row for item A in the week ending day 17 carries the
summed quantity, and the empty input yields the empty summary. -/
theorem C8_grouped_weekly_witness :
    weekBucket 4 ≤ 10 ∧
    ((("A", 17), (1 : Int)).2 =
      keySum [⟨"B", 4, 1⟩, ⟨"A", 11, 1⟩] (("A", 17), (1 : Int)).1) ∧
    weeklySummary [] = [] := by
  refine ⟨?_, ?_, (C8_grouped_weekly []).2.2.2.2.2⟩
  · exact ((C8_grouped_weekly []).1 4).2.2 10 (by decide) (by decide)
  · exact (C8_grouped_weekly [⟨"B", 4, 1⟩, ⟨"A", 11, 1⟩]).2.2.1
      (("A", 17), 1) (by decide)

end OrderApp
